import Mathlib

/-!
# PNG codec module (`modules/codec/png.c`): a shallow embedding

The module bridges a compressed PNG frame (`block_t`) and a raster picture
(`picture_t`) through the libpng engine.  The engine is an external
collaborator: it is represented here by the interface the module uses, and every
engine call is an interaction tree whose only effects are the callbacks the
module registers (`user_read`, `user_error`, `user_warning` on the read side,
`user_write`, `user_flush`, `user_write_error`, `user_write_warning` on the
write side).

Machine integers are `Nat`/`Int` with explicit wrap-around where the C code
converts between `int`, `png_size_t` and `png_uint_32`.
-/

namespace Png

/-! ## Machine integers -/

/-- A byte of a buffer (`uint8_t`, `png_byte`). Bytes are only copied, never computed on. -/
abbrev Byte := Nat

/-- Largest value of a C `int`. -/
def INT_MAX : Int := 2147483647

/-- Conversion to C `int` (32-bit two's complement, wrapping): the cast `(int)x`
and the store of a wider value into an `int` field. -/
def to_int (z : Int) : Int := (z + 2147483648) % 4294967296 - 2147483648

/-- Conversion of a C `int` to `png_size_t` (unsigned, 64-bit, wrapping). -/
def to_size (z : Int) : Nat := (z % 18446744073709551616).toNat

/-- Reduction to `png_uint_32` / `unsigned int` (32-bit, wrapping). -/
def to_u32 (n : Nat) : Nat := n % 4294967296

/-- Modelled from the spec: the `__MIN(a, b)` of the VLC headers (not under
`src/`), the smaller of two C `int`s, `a < b ? a : b`. -/
def MIN (a b : Int) : Int := if a < b then a else b

/-- Modelled from the spec: the `VLC_FOURCC(a,b,c,d)` of the VLC headers (not
under `src/`), the tag of a pixel or stream format, as the little-endian
packing of its four characters. -/
def VLC_FOURCC (a b c d : Char) : Nat :=
  a.toNat + 256 * b.toNat + 65536 * c.toNat + 16777216 * d.toNat

/-- Modelled from the spec: `VOUT_ASPECT_FACTOR` of the VLC video headers (not
under `src/`), the pipeline's aspect unit, 432000. -/
def VOUT_ASPECT_FACTOR : Nat := 432000

/-! ## libpng constants (`png.h`)

The color type of a PNG header is a set of the bits palette (1), color (2) and
alpha (4); `PNG_INFO_tRNS` is the validity bit of the transparency chunk. -/

def PNG_COLOR_MASK_PALETTE : Nat := 1
def PNG_COLOR_MASK_COLOR : Nat := 2
def PNG_COLOR_MASK_ALPHA : Nat := 4
def PNG_COLOR_TYPE_GRAY : Nat := 0
def PNG_COLOR_TYPE_PALETTE : Nat := PNG_COLOR_MASK_COLOR ||| PNG_COLOR_MASK_PALETTE
def PNG_COLOR_TYPE_RGB : Nat := PNG_COLOR_MASK_COLOR
def PNG_COLOR_TYPE_RGB_ALPHA : Nat := PNG_COLOR_MASK_COLOR ||| PNG_COLOR_MASK_ALPHA
def PNG_COLOR_TYPE_GRAY_ALPHA : Nat := PNG_COLOR_MASK_ALPHA
def PNG_INTERLACE_NONE : Nat := 0
def PNG_COMPRESSION_TYPE_DEFAULT : Nat := 0
def PNG_FILTER_TYPE_DEFAULT : Nat := 0
def PNG_INFO_tRNS : Nat := 16

/-! ## Data model -/

/-- The compressed frame `block_t` (declared in the VLC headers, not under
`src/`; the fields the module uses): `p_buffer` is the memory reachable from the
cursor (advancing the pointer drops from the front), `i_buffer` the C `int`
count of bytes the frame says remain. -/
structure block_t where
  p_buffer : List Byte
  i_buffer : Int
  i_pts : Int
  i_dts : Int
  deriving DecidableEq, Repr

/-- The `video_format_t` part of an elementary stream format. -/
structure video_format_t where
  i_width : Nat
  i_height : Nat
  i_aspect : Nat
  deriving DecidableEq, Repr

/-- The output format `es_format_t` of the decoder. -/
structure es_format_t where
  i_codec : Nat
  video : video_format_t
  deriving DecidableEq, Repr

/-- The picture format header of a `picture_t`. -/
structure video_frame_format_t where
  i_chroma : Nat
  i_width : Nat
  i_height : Nat
  deriving DecidableEq, Repr

/-- The first plane `p_pic->p` of a picture: pixel memory and pitch (bytes per row). -/
structure plane_t where
  p_pixels : List Byte
  i_pitch : Nat
  deriving DecidableEq, Repr

/-- The raster picture `picture_t` (declared in the VLC headers, not under
`src/`; the fields the module uses). -/
structure picture_t where
  format : video_frame_format_t
  p : plane_t
  date : Int
  deriving DecidableEq, Repr

/-- The decoder descriptor `decoder_sys_t`. -/
structure decoder_sys_t where
  b_error : Bool
  deriving DecidableEq, Repr

/-- The part of `decoder_t` (VLC headers, not under `src/`) the module touches;
its allocator `pf_vout_buffer_new` is a parameter of `DecodeBlock`. -/
structure decoder_t where
  p_sys : decoder_sys_t
  fmt_out : es_format_t
  deriving DecidableEq, Repr

/-- The values `png_get_IHDR` stores through its out-parameters. -/
structure IHDR where
  i_width : Nat
  i_height : Nat
  i_bit_depth : Nat
  i_color_type : Nat
  i_interlace_type : Nat
  i_compression_type : Nat
  i_filter_type : Nat
  deriving DecidableEq, Repr

/-- The transform requests `png_set_*` the decoder can make. -/
inductive Transform where
  | palette_to_rgb
  | gray_to_rgb
  | strip_16
  | tRNS_to_alpha
  | bgr
  deriving DecidableEq, Repr

/-- The observable steps of one call: writes to the error flag, callbacks, and
calls to the collaborators that own resources. -/
inductive Event where
  | b_error_set (v : Bool)
  | read_data (i_length : Nat) (short : Bool)
  | png_error
  | msg_Err
  | msg_Warn
  | png_set (t : Transform)
  | vout_buffer_new (ok : Bool)
  | vout_buffer_del
  | block_Release
  | png_destroy_read_struct
  deriving DecidableEq, Repr

/-- What the read-side callbacks reach through the engine's pointers: the frame
(`png_get_io_ptr`), the decoder (`png_get_error_ptr`), and the call's event log. -/
structure read_ctx where
  p_block : block_t
  p_dec : decoder_t
  log : List Event
  deriving DecidableEq, Repr

/-! ## Read-side callbacks (`png.c` lines 102-124) -/

/-- The callback `user_error`: sets the sticky flag and logs the message. -/
def user_error (c : read_ctx) : read_ctx :=
  { c with
    p_dec := { c.p_dec with p_sys := { c.p_dec.p_sys with b_error := true } }
    log := c.log ++ [Event.b_error_set true, Event.msg_Err] }

/-- The callback `user_warning`: logs the message only. -/
def user_warning (c : read_ctx) : read_ctx :=
  { c with log := c.log ++ [Event.msg_Warn] }

/-- The engine's `png_error` as seen by this module: it dispatches to the registered
error function, which returns. -/
def png_error (c : read_ctx) : read_ctx :=
  user_error { c with log := c.log ++ [Event.png_error] }

/-- The callback `user_read`: copies `i_length` bytes at the cursor, advances the
cursor, decreases the remaining count, and calls `png_error` when the bytes
available were fewer than requested. Memory past the end of the frame is not
represented: the copy delivers the bytes that exist. -/
def user_read (c : read_ctx) (i_length : Nat) : List Byte × read_ctx :=
  let p_block := c.p_block
  let i_read : Nat := to_size (MIN p_block.i_buffer (to_int i_length))
  let data := p_block.p_buffer.take i_length
  let p_block := { p_block with p_buffer := p_block.p_buffer.drop i_length }
  let p_block := { p_block with i_buffer := to_int (p_block.i_buffer - i_length) }
  let c := { c with
    p_block := p_block
    log := c.log ++ [Event.read_data i_length (i_length != i_read)] }
  if i_length != i_read then (data, png_error c) else (data, c)

/-! ## The engine, read side -/

/-- One call into the engine on the read side, as the module sees it: the engine
may ask the read callback for bytes, report an error or a warning through the
registered functions, and finally returns. -/
inductive ReadProg (α : Type) : Type where
  | ret (a : α) : ReadProg α
  | read_data (i_length : Nat) (k : List Byte → ReadProg α) : ReadProg α
  | error (k : ReadProg α) : ReadProg α
  | warning (k : ReadProg α) : ReadProg α

/-- Running an engine call against the callbacks this module registers with
`png_set_read_fn` and `png_set_error_fn`. -/
def ReadProg.run {α : Type} : ReadProg α → read_ctx → α × read_ctx
  | .ret a, c => (a, c)
  | .read_data n k, c => (k (user_read c n).1).run (user_read c n).2
  | .error k, c => k.run (png_error c)
  | .warning k, c => k.run (user_warning c)

/-- The read half of the engine: `σ` is the state behind `png_structp`, `ι` the
state behind `png_infop`. `png_get_valid` reads the info structure only. The
image read returns the stores it performs through the row pointers, as
(address, bytes) pairs. -/
structure png_reader (σ ι : Type) where
  png_create_read_struct : σ
  png_create_info_struct : σ → ι
  png_read_info : σ → ι → ReadProg (σ × ι)
  png_get_IHDR : σ → ι → ReadProg IHDR
  png_get_valid : ι → Nat → Nat
  png_set : Transform → σ → ReadProg σ
  png_read_image : σ → List Nat → ReadProg (σ × List (Nat × List Byte))
  png_read_end : σ → ι → ReadProg (σ × ι)

/-- A store of `bytes` at offset `ptr` of a pixel memory. -/
def store (mem : List Byte) (ptr : Nat) (bytes : List Byte) : List Byte :=
  mem.take ptr ++ bytes ++ mem.drop (ptr + bytes.length)

/-- The stores of an image read, applied in order. -/
def store_all (mem : List Byte) (stores : List (Nat × List Byte)) : List Byte :=
  stores.foldl (fun m s => store m s.1 s.2) mem

/-- The row-pointer table both `DecodeBlock` and `Encode` build:
`p_row_pointers[i] = p_pixels + i_pitch * i` for `0 <= i < (int)i_height`,
as offsets into the pixel memory. -/
def row_pointers (i_pitch : Nat) (i_height : Nat) : List Nat :=
  (List.range (to_int i_height).toNat).map (fun i => i_pitch * i)

/-! ## `DecodeBlock` (`png.c` lines 131-222) -/

/-- What a `DecodeBlock` call that returns leaves behind: the returned picture, the caller's
frame reference `*pp_block` (`none` when `pp_block` itself is null), the decoder,
and the event log of the call. -/
structure decode_result where
  p_pic : Option picture_t
  pp_block : Option (Option block_t)
  p_dec : decoder_t
  log : List Event
  deriving DecidableEq, Repr

/-- The label `error:` (lines 216-221). The row table's heap bookkeeping is not
represented; the picture is not touched here. -/
def DecodeBlock_error (c : read_ctx) : decode_result :=
  { p_pic := none
    pp_block := some none
    p_dec := c.p_dec
    log := c.log ++ [Event.png_destroy_read_struct, Event.block_Release] }

/-- A transform request `png_set_*( p_png )`. -/
def png_set {σ ι : Type} (R : png_reader σ ι) (t : Transform) (s : σ × read_ctx) :
    σ × read_ctx :=
  (R.png_set t s.1).run { s.2 with log := s.2.log ++ [Event.png_set t] }

/-- Lines 165-169: the output properties. The product and the quotient are taken
in `png_uint_32`. The division by the height has no guard: for a zero height it
is undefined in C (the process traps), which is `none` here, the call going no
further. -/
def set_output_properties (h : IHDR) (p_dec : decoder_t) : Option decoder_t :=
  if to_u32 h.i_height = 0 then none
  else
    some { p_dec with
      fmt_out :=
        { i_codec := VLC_FOURCC 'R' 'V' '3' '2'
          video :=
            { i_width := to_u32 h.i_width
              i_height := to_u32 h.i_height
              i_aspect :=
                to_u32 (to_u32 (VOUT_ASPECT_FACTOR * to_u32 h.i_width) / to_u32 h.i_height) } } }

/-- Lines 171-194: the transform requests and the choice of the output chroma,
from the header `h` and `valid`, the result of
`png_get_valid( p_png, p_info, PNG_INFO_tRNS )`, on a context whose output
properties are set. -/
def DecodeBlock_requests {σ ι : Type} (R : png_reader σ ι) (h : IHDR) (valid : Nat)
    (s : σ × read_ctx) : σ × read_ctx :=
  let s := if h.i_color_type = PNG_COLOR_TYPE_PALETTE then png_set R .palette_to_rgb s else s
  let s :=
    if h.i_color_type = PNG_COLOR_TYPE_GRAY ∨ h.i_color_type = PNG_COLOR_TYPE_GRAY_ALPHA then
      png_set R .gray_to_rgb s
    else s
  let s := if h.i_bit_depth = 16 then png_set R .strip_16 s else s
  let s :=
    if valid ≠ 0 then png_set R .tRNS_to_alpha s
    else if h.i_color_type &&& PNG_COLOR_MASK_ALPHA = 0 then
      (s.1, { s.2 with p_dec := { s.2.p_dec with fmt_out :=
        { s.2.p_dec.fmt_out with i_codec := VLC_FOURCC 'R' 'V' '2' '4' } } })
    else s
  if h.i_color_type &&& PNG_COLOR_MASK_COLOR ≠ 0 ∧
      s.2.p_dec.fmt_out.i_codec ≠ VLC_FOURCC 'R' 'V' '2' '4' then
    png_set R .bgr s
  else s

/-- Lines 165-194: the output properties, then the transform requests; `none`
when the division of line 169 traps. -/
def DecodeBlock_select {σ ι : Type} (R : png_reader σ ι) (h : IHDR) (valid : Nat)
    (p_png : σ) (c : read_ctx) : Option (σ × read_ctx) :=
  match set_output_properties h c.p_dec with
  | none => none
  | some d => some (DecodeBlock_requests R h valid (p_png, { c with p_dec := d }))

/-- Lines 196-214: the picture is requested, the row table built, the image and
the end of the stream read; the error flag is consulted after each read. -/
def DecodeBlock_picture {σ ι : Type} (R : png_reader σ ι)
    (pf_vout_buffer_new : decoder_t → Option picture_t)
    (h : IHDR) (p_png : σ) (p_end_info : ι) (c : read_ctx) : decode_result :=
  match pf_vout_buffer_new c.p_dec with
  | none => DecodeBlock_error { c with log := c.log ++ [Event.vout_buffer_new false] }
  | some p_pic =>
    let c := { c with log := c.log ++ [Event.vout_buffer_new true] }
    let p_row_pointers := row_pointers p_pic.p.i_pitch h.i_height
    let r := (R.png_read_image p_png p_row_pointers).run c
    let p_pic := { p_pic with p := { p_pic.p with p_pixels := store_all p_pic.p.p_pixels r.1.2 } }
    if r.2.p_dec.p_sys.b_error then DecodeBlock_error r.2
    else
      let e := (R.png_read_end r.1.1 p_end_info).run r.2
      if e.2.p_dec.p_sys.b_error then DecodeBlock_error e.2
      else
        { p_pic := some p_pic
          pp_block := some none
          p_dec := e.2.p_dec
          log := e.2.log ++ [Event.png_destroy_read_struct, Event.block_Release] }

/-- Lines 147-148 for a non-null frame: the frame is taken and the error flag reset. -/
def DecodeBlock_entry (p_dec : decoder_t) (p_block : block_t) : read_ctx :=
  { p_block := p_block
    p_dec := { p_dec with p_sys := { p_dec.p_sys with b_error := false } }
    log := [Event.b_error_set false] }

/-- Lines 147-163 for a non-null frame: the flag is reset, the engine structures
are created, the header is read and fetched; `Except.error` is the jump to the
label `error:`. -/
def DecodeBlock_header {σ ι : Type} (R : png_reader σ ι) (p_dec : decoder_t)
    (p_block : block_t) : Except read_ctx (IHDR × σ × ι × ι × read_ctx) :=
  let c := DecodeBlock_entry p_dec p_block
  let p_png := R.png_create_read_struct
  let p_info := R.png_create_info_struct p_png
  let p_end_info := R.png_create_info_struct p_png
  let r := (R.png_read_info p_png p_info).run c
  if r.2.p_dec.p_sys.b_error then .error r.2
  else
    let g := (R.png_get_IHDR r.1.1 r.1.2).run r.2
    if g.2.p_dec.p_sys.b_error then .error g.2
    else .ok (g.1, r.1.1, r.1.2, p_end_info, g.2)

/-- The function `DecodeBlock`. The result is `none` when the call does not
return, which happens only when the division of line 169 traps. The validity of
the transparency chunk, asked at line 181, depends on the info structure only
and is passed to the transform stage. `pf_vout_buffer_new` is the allocator of
the decoder's owner: `none` is a null picture. -/
def DecodeBlock {σ ι : Type} (R : png_reader σ ι)
    (pf_vout_buffer_new : decoder_t → Option picture_t)
    (p_dec : decoder_t) (pp_block : Option (Option block_t)) : Option decode_result :=
  match pp_block with
  | none => some { p_pic := none, pp_block := none, p_dec := p_dec, log := [] }
  | some none => some { p_pic := none, pp_block := some none, p_dec := p_dec, log := [] }
  | some (some p_block) =>
    match DecodeBlock_header R p_dec p_block with
    | .error c => some (DecodeBlock_error c)
    | .ok (h, p_png, p_info, p_end_info, c) =>
      match DecodeBlock_select R h (R.png_get_valid p_info PNG_INFO_tRNS) p_png c with
      | none => none
      | some s => some (DecodeBlock_picture R pf_vout_buffer_new h s.1 p_end_info s.2)

/-! ## The PNG encoder (`png.c` lines 238-349) -/

/-- The encoder descriptor `encoder_sys_t`; the block chain `p_chain` is the list
of its blocks, `NULL` being the empty list. -/
structure encoder_sys_t where
  p_chain : List block_t
  date : Int
  b_error : Bool
  deriving DecidableEq, Repr

/-- The part of `encoder_t` (VLC headers, not under `src/`) the module touches. -/
structure encoder_t where
  p_sys : encoder_sys_t
  fmt_out : es_format_t
  b_force : Bool
  deriving DecidableEq, Repr

/-- Modelled from the spec: `block_New` of the VLC core (not under `src/`), which
allocates a new output chunk of the given size; its bytes are zero here until
they are written, its timestamps zero. -/
def block_New (i_size : Nat) : block_t :=
  { p_buffer := List.replicate i_size 0, i_buffer := i_size, i_pts := 0, i_dts := 0 }

/-- Modelled from the spec: `block_ChainAppend` of the VLC core (not under
`src/`), an order-preserving append of a chunk at the end of the chunk list. -/
def block_ChainAppend (p_chain : List block_t) (p_block : block_t) : List block_t :=
  p_chain ++ [p_block]

/-- Modelled from the spec: `block_ChainGather` of the VLC core (not under
`src/`), which concatenates all chunks in order into a single new frame; the
frame carries the timestamps of the first chunk. -/
def block_ChainGather (p_chain : List block_t) : block_t :=
  { p_buffer := (p_chain.map (fun b => b.p_buffer)).flatten
    i_buffer := (p_chain.map (fun b => b.i_buffer)).sum
    i_pts := (p_chain.head?.map (fun b => b.i_pts)).getD 0
    i_dts := (p_chain.head?.map (fun b => b.i_dts)).getD 0 }

/-- The C library's `memcpy( dst, src, n )` on buffers. -/
def memcpy (dst src : List Byte) (n : Nat) : List Byte :=
  src.take n ++ dst.drop n

/-- The function `OpenEncoder`: it refuses a codec other than `png ` unless
forced (`none` is `VLC_EGENERIC`); otherwise the descriptor is allocated, with
`mem` the content of the fresh allocation, and only its chain is set. -/
def OpenEncoder (p_enc : encoder_t) (mem : encoder_sys_t) : Option encoder_t :=
  if p_enc.fmt_out.i_codec ≠ VLC_FOURCC 'p' 'n' 'g' ' ' ∧ ¬ p_enc.b_force then none
  else some { p_enc with p_sys := { mem with p_chain := [] } }

/-- The callback `user_write`: a new block of the chunk's size receives the
bytes and the date of the picture, and is appended to the chain. -/
def user_write (p_enc : encoder_t) (data : List Byte) (i_length : Nat) : encoder_t :=
  let p_block := block_New i_length
  let p_block := { p_block with p_buffer := memcpy p_block.p_buffer data i_length }
  let p_block := { p_block with i_dts := p_enc.p_sys.date, i_pts := p_enc.p_sys.date }
  { p_enc with p_sys :=
      { p_enc.p_sys with p_chain := block_ChainAppend p_enc.p_sys.p_chain p_block } }

/-- The callback `user_flush`: nothing. -/
def user_flush (p_enc : encoder_t) : encoder_t := p_enc

/-- The callback `user_write_error`: sets the encoder's error flag (and logs). -/
def user_write_error (p_enc : encoder_t) : encoder_t :=
  { p_enc with p_sys := { p_enc.p_sys with b_error := true } }

/-- The callback `user_write_warning`: logs only. -/
def user_write_warning (p_enc : encoder_t) : encoder_t := p_enc

/-- One call into the engine on the write side: the engine may hand chunks to the
write callback, flush, report an error or a warning, and finally returns. -/
inductive WriteProg (α : Type) : Type where
  | ret (a : α) : WriteProg α
  | write_data (data : List Byte) (k : WriteProg α) : WriteProg α
  | flush (k : WriteProg α) : WriteProg α
  | error (k : WriteProg α) : WriteProg α
  | warning (k : WriteProg α) : WriteProg α

/-- Running an engine call against the callbacks registered with
`png_set_write_fn` and `png_set_error_fn`. -/
def WriteProg.run {α : Type} : WriteProg α → encoder_t → α × encoder_t
  | .ret a, e => (a, e)
  | .write_data d k, e => k.run (user_write e d d.length)
  | .flush k, e => k.run (user_flush e)
  | .error k, e => k.run (user_write_error e)
  | .warning k, e => k.run (user_write_warning e)

/-- The value an engine call returns. -/
def WriteProg.value {α : Type} : WriteProg α → α
  | .ret a => a
  | .write_data _ k => k.value
  | .flush k => k.value
  | .error k => k.value
  | .warning k => k.value

/-- The chunks an engine call emits through the write callback, in order. -/
def WriteProg.chunks {α : Type} : WriteProg α → List (List Byte)
  | .ret _ => []
  | .write_data d k => d :: k.chunks
  | .flush k => k.chunks
  | .error k => k.chunks
  | .warning k => k.chunks

/-- Whether an engine call reports an error through the error callback. -/
def WriteProg.errors {α : Type} : WriteProg α → Bool
  | .ret _ => false
  | .write_data _ k => k.errors
  | .flush k => k.errors
  | .error _ => true
  | .warning k => k.errors

/-- The write half of the engine. The image write receives the row-pointer table
and reads the picture memory through `mem ptr n`, the `n` bytes at offset `ptr`. -/
structure png_writer (σ ι : Type) where
  png_create_write_struct : σ
  png_create_info_struct : σ → ι
  png_set_IHDR : σ → ι → IHDR → WriteProg ι
  png_write_info : σ → ι → WriteProg σ
  png_write_image : σ → (Nat → Nat → List Byte) → List Nat → WriteProg σ
  png_write_end : σ → ι → WriteProg σ

/-- The `n` bytes of a memory at offset `ptr`. -/
def peek (mem : List Byte) (ptr n : Nat) : List Byte :=
  (mem.drop ptr).take n

/-- The header `Encode` passes to `png_set_IHDR` (lines 322-328). -/
def Encode_IHDR (p_pic : picture_t) : IHDR :=
  { i_width := p_pic.format.i_width
    i_height := p_pic.format.i_height
    i_bit_depth := 8
    i_color_type := PNG_COLOR_TYPE_RGB
    i_interlace_type := PNG_INTERLACE_NONE
    i_compression_type := PNG_COMPRESSION_TYPE_DEFAULT
    i_filter_type := PNG_FILTER_TYPE_DEFAULT }

/-- Lines 313-338 of `Encode`: the date is recorded, the engine structures are
created, the header is set, the row table built, and header, image and end are
written. No engine call is followed by a look at the error flag. -/
def Encode_engine {σ ι : Type} (W : png_writer σ ι) (p_enc : encoder_t)
    (p_pic : picture_t) : encoder_t :=
  let p_enc := { p_enc with p_sys := { p_enc.p_sys with date := p_pic.date } }
  let p_png := W.png_create_write_struct
  let p_info := W.png_create_info_struct p_png
  let i := (W.png_set_IHDR p_png p_info (Encode_IHDR p_pic)).run p_enc
  let p_row_pointers := row_pointers p_pic.p.i_pitch p_pic.format.i_height
  let a := (W.png_write_info p_png i.1).run i.2
  let b := (W.png_write_image a.1 (peek p_pic.p.p_pixels) p_row_pointers).run a.2
  let e := (W.png_write_end b.1 i.1).run b.2
  e.2

/-- The function `Encode` (lines 305-349): after the engine calls, the chain is
gathered when it is not empty, and reset. -/
def Encode {σ ι : Type} (W : png_writer σ ι) (p_enc : encoder_t) (p_pic : picture_t) :
    Option block_t × encoder_t :=
  let p_enc := Encode_engine W p_enc p_pic
  let p_gather :=
    if p_enc.p_sys.p_chain ≠ [] then some (block_ChainGather p_enc.p_sys.p_chain) else none
  let p_enc := { p_enc with p_sys := { p_enc.p_sys with p_chain := [] } }
  (p_gather, p_enc)

/-- The chunks the engine emits when it writes an image with header `h` whose
rows are read through `mem` at `ptrs`: header set, header write, image write,
end write. -/
def png_write_chunks {σ ι : Type} (W : png_writer σ ι) (h : IHDR)
    (mem : Nat → Nat → List Byte) (ptrs : List Nat) : List (List Byte) :=
  let p_png := W.png_create_write_struct
  let p_info := W.png_create_info_struct p_png
  let i := W.png_set_IHDR p_png p_info h
  let a := W.png_write_info p_png i.value
  let b := W.png_write_image a.value mem ptrs
  let e := W.png_write_end b.value i.value
  i.chunks ++ a.chunks ++ b.chunks ++ e.chunks

/-- Whether the engine reports an error while writing that image. -/
def png_write_errors {σ ι : Type} (W : png_writer σ ι) (h : IHDR)
    (mem : Nat → Nat → List Byte) (ptrs : List Nat) : Bool :=
  let p_png := W.png_create_write_struct
  let p_info := W.png_create_info_struct p_png
  let i := W.png_set_IHDR p_png p_info h
  let a := W.png_write_info p_png i.value
  let b := W.png_write_image a.value mem ptrs
  let e := W.png_write_end b.value i.value
  i.errors || a.errors || b.errors || e.errors

/-- The chunks the engine emits through `user_write` during one `Encode` call. -/
def Encode_chunks {σ ι : Type} (W : png_writer σ ι) (p_pic : picture_t) : List (List Byte) :=
  png_write_chunks W (Encode_IHDR p_pic) (peek p_pic.p.p_pixels)
    (row_pointers p_pic.p.i_pitch p_pic.format.i_height)

/-- The chunk of the chain that holds a copy of `c`, stamped with `date`. -/
def chunk_block (date : Int) (c : List Byte) : block_t :=
  { p_buffer := c, i_buffer := c.length, i_pts := date, i_dts := date }

/-- The chain at the entry of each `Encode` call of a sequence of calls. -/
def Encode_entries {σ ι : Type} (W : png_writer σ ι) :
    encoder_t → List picture_t → List (List block_t)
  | _, [] => []
  | p_enc, p :: ps => p_enc.p_sys.p_chain :: Encode_entries W (Encode W p_enc p).2 ps

/-! ## The engine as a codec of byte streams -/

/-- The header a `DecodeBlock` call on `p_block` sees: the values of
`png_get_IHDR` and of `png_get_valid( p_png, p_info, PNG_INFO_tRNS )`, when the
header stage reaches them. -/
def header_of {σ ι : Type} (R : png_reader σ ι) (p_dec : decoder_t) (p_block : block_t) :
    Option (IHDR × Nat) :=
  match DecodeBlock_header R p_dec p_block with
  | .ok (h, _, p_info, _, _) => some (h, R.png_get_valid p_info PNG_INFO_tRNS)
  | .error _ => none

/-- Samples per pixel of a color type. -/
def raw_channels (i_color_type : Nat) : Nat :=
  if i_color_type = PNG_COLOR_TYPE_GRAY then 1
  else if i_color_type = PNG_COLOR_TYPE_GRAY_ALPHA then 2
  else if i_color_type = PNG_COLOR_TYPE_PALETTE then 1
  else if i_color_type = PNG_COLOR_TYPE_RGB then 3
  else if i_color_type = PNG_COLOR_TYPE_RGB_ALPHA then 4
  else 0

/-- The headers the PNG format allows, as the specification lists them: GRAY with
bit depth at most 8 or 16, PALETTE with bit depth at most 8, GRAY_ALPHA, RGB and
RGB_ALPHA with bit depth 8 or 16, and a transparency chunk only for GRAY,
PALETTE and RGB. -/
def valid_header (h : IHDR) (valid : Nat) : Prop :=
  ((h.i_color_type = PNG_COLOR_TYPE_GRAY ∧ (h.i_bit_depth ≤ 8 ∨ h.i_bit_depth = 16)) ∨
   (h.i_color_type = PNG_COLOR_TYPE_PALETTE ∧ h.i_bit_depth ≤ 8) ∨
   ((h.i_color_type = PNG_COLOR_TYPE_GRAY_ALPHA ∨ h.i_color_type = PNG_COLOR_TYPE_RGB ∨
      h.i_color_type = PNG_COLOR_TYPE_RGB_ALPHA) ∧
    (h.i_bit_depth = 8 ∨ h.i_bit_depth = 16))) ∧
  (valid ≠ 0 → h.i_color_type = PNG_COLOR_TYPE_GRAY ∨
    h.i_color_type = PNG_COLOR_TYPE_PALETTE ∨ h.i_color_type = PNG_COLOR_TYPE_RGB)

/-- The channels per pixel the engine produces after one more transform, as the
specification counts them: palette expansion gives 3, gray expansion adds 2,
transparency-to-alpha adds 1; the 16-to-8 strip and the channel swap keep the count. -/
def channels_step (n : Nat) : Transform → Nat
  | .palette_to_rgb => 3
  | .gray_to_rgb => n + 2
  | .strip_16 => n
  | .tRNS_to_alpha => n + 1
  | .bgr => n

/-- The channels per pixel the engine produces for a color type after a list of
transforms, from the base channels GRAY 1, GRAY_ALPHA 2, PALETTE 1, RGB 3,
RGB_ALPHA 4. -/
def channels_after (i_color_type : Nat) (ts : List Transform) : Nat :=
  ts.foldl channels_step (raw_channels i_color_type)

/-! ## What an engine call can do to the context -/

/-- The events an engine call can add to the log: the transform request itself,
and the callbacks the engine triggers. -/
def Event.is_engine : Event → Bool
  | .b_error_set true => true
  | .read_data _ _ => true
  | .png_error => true
  | .msg_Err => true
  | .msg_Warn => true
  | .png_set _ => true
  | _ => false

/-- The transform requests recorded in a log, in order. -/
def requested (evs : List Event) : List Transform :=
  evs.filterMap (fun e => match e with
    | .png_set t => some t
    | _ => none)

/-- The events `evs` are what engine calls added while the flag went from `b0`
to `b1`: engine events only, the flag is raised exactly when an error was
dispatched, and every short read dispatched one. -/
structure engine_trace (b0 b1 : Bool) (evs : List Event) : Prop where
  engine : ∀ e ∈ evs, e.is_engine = true
  flag : b1 = (b0 || decide (Event.b_error_set true ∈ evs))
  short : ∀ n, Event.read_data n true ∈ evs → Event.b_error_set true ∈ evs

/-- The context `c'` extends the log of `c` by engine events with the transform
requests `ts`, the flag moving accordingly. -/
def engine_log (c c' : read_ctx) (ts : List Transform) : Prop :=
  ∃ evs, c'.log = c.log ++ evs ∧
    engine_trace c.p_dec.p_sys.b_error c'.p_dec.p_sys.b_error evs ∧ requested evs = ts

/-- What any step that only runs engine calls does to the context: it extends the
log by engine events and keeps the output format. -/
structure engine_step (c c' : read_ctx) (ts : List Transform) : Prop where
  log : engine_log c c' ts
  fmt : c'.p_dec.fmt_out = c.p_dec.fmt_out

/-- The transform requests for a header, in the order the decoder makes them:
palette expansion, gray expansion, 16-to-8 strip, transparency to alpha, and
last the channel swap. -/
def transforms_of (h : IHDR) (valid : Nat) : List Transform :=
  (if h.i_color_type = PNG_COLOR_TYPE_PALETTE then [Transform.palette_to_rgb] else []) ++
  (if h.i_color_type = PNG_COLOR_TYPE_GRAY ∨ h.i_color_type = PNG_COLOR_TYPE_GRAY_ALPHA then
    [Transform.gray_to_rgb] else []) ++
  (if h.i_bit_depth = 16 then [Transform.strip_16] else []) ++
  (if valid ≠ 0 then [Transform.tRNS_to_alpha] else []) ++
  (if h.i_color_type &&& PNG_COLOR_MASK_COLOR ≠ 0 ∧
      (valid ≠ 0 ∨ h.i_color_type &&& PNG_COLOR_MASK_ALPHA ≠ 0) then [Transform.bgr] else [])

/-- The output chroma for a header: RV32 when the transparency chunk is present
or the color type has the alpha bit, RV24 otherwise. -/
def chroma_of (h : IHDR) (valid : Nat) : Nat :=
  if valid ≠ 0 ∨ h.i_color_type &&& PNG_COLOR_MASK_ALPHA ≠ 0 then VLC_FOURCC 'R' 'V' '3' '2'
  else VLC_FOURCC 'R' 'V' '2' '4'

/-- The shape of the log of a `DecodeBlock` call on a non-null frame: the reset of
the flag, the engine events `pre` of the header and transform stage, the
allocation `mid` when it is reached, the engine events `post` of the image and
end reads, and the clean-up. `b1` and `b2` are the flag after `pre` and `post`. -/
structure decode_shape (r : decode_result) (pre mid post : List Event) (b1 b2 : Bool) :
    Prop where
  log : r.log = Event.b_error_set false ::
    (pre ++ (mid ++ post ++ [Event.png_destroy_read_struct, Event.block_Release]))
  pre_trace : engine_trace false b1 pre
  post_trace : engine_trace b1 b2 post
  post_requested : requested post = []
  mid_cases : (mid = [] ∧ post = [] ∧ b1 = true) ∨
    (mid = [Event.vout_buffer_new false] ∧ post = []) ∨ mid = [Event.vout_buffer_new true]
  pic : r.p_pic.isSome = true ↔ (mid = [Event.vout_buffer_new true] ∧ b2 = false)
  pp_block : r.pp_block = some none

/-! ## The decode as the specification words it -/

/-- An engine call that counts only when it leaves the error flag down. -/
def clean_call {α : Type} (p : ReadProg α) (c : read_ctx) : Option (α × read_ctx) :=
  if (p.run c).2.p_dec.p_sys.b_error then none else some (p.run c)

/-- The transform requests `ts`, made in order, the error state looked at after
each of them. -/
def clean_requests {σ ι : Type} (R : png_reader σ ι) :
    List Transform → σ × read_ctx → Option (σ × read_ctx)
  | [], s => some s
  | t :: ts, s =>
    match clean_call (R.png_set t s.1) s.2 with
    | none => none
    | some s' => clean_requests R ts s'

/-- The output format the specification gives a header with a non-zero height:
the chroma of the decision table, the header's width and height, and the aspect
as aspect unit times width by height, in unsigned 32-bit arithmetic. -/
def format_spec (h : IHDR) (valid : Nat) : Option es_format_t :=
  if to_u32 h.i_height = 0 then none
  else
    some
      { i_codec := chroma_of h valid
        video :=
          { i_width := to_u32 h.i_width
            i_height := to_u32 h.i_height
            i_aspect :=
              to_u32 (to_u32 (VOUT_ASPECT_FACTOR * to_u32 h.i_width) / to_u32 h.i_height) } }

/-- The last steps of the decode as the specification words it: the picture of
the chosen format from the allocator, image read into its rows, end read; the
picture is the allocator's, filled by the stores of the image read. -/
def picture_spec {σ ι : Type} (R : png_reader σ ι)
    (pf_vout_buffer_new : decoder_t → Option picture_t) (d : decoder_t)
    (h : IHDR) (p_png : σ) (p_end_info : ι) (c : read_ctx) : Option picture_t :=
  match pf_vout_buffer_new d with
  | none => none
  | some p0 =>
    match clean_call (R.png_read_image p_png (row_pointers p0.p.i_pitch h.i_height)) c with
    | none => none
    | some (im, c4) =>
      match clean_call (R.png_read_end im.1 p_end_info) c4 with
      | none => none
      | some _ =>
        some { p0 with p := { p0.p with p_pixels := store_all p0.p.p_pixels im.2 } }

/-- The decode of one frame as the specification words it: header read, header
fetch, the transform set of the decision table, then the picture. Any engine
call that leaves the error state raised, and an allocator that returns nothing,
give no picture. -/
def decode_spec {σ ι : Type} (R : png_reader σ ι)
    (pf_vout_buffer_new : decoder_t → Option picture_t)
    (p_dec : decoder_t) (p_block : block_t) : Option picture_t :=
  let c0 : read_ctx :=
    { p_block := p_block, p_dec := { p_dec with p_sys := { b_error := false } }, log := [] }
  let p_png := R.png_create_read_struct
  let p_info := R.png_create_info_struct p_png
  let p_end_info := R.png_create_info_struct p_png
  match clean_call (R.png_read_info p_png p_info) c0 with
  | none => none
  | some (s, c1) =>
    match clean_call (R.png_get_IHDR s.1 s.2) c1 with
    | none => none
    | some (h, c2) =>
      match format_spec h (R.png_get_valid s.2 PNG_INFO_tRNS) with
      | none => none
      | some fmt =>
        match clean_requests R (transforms_of h (R.png_get_valid s.2 PNG_INFO_tRNS))
            (s.1, c2) with
        | none => none
        | some t =>
          picture_spec R pf_vout_buffer_new { p_sys := { b_error := false }, fmt_out := fmt }
            h t.1 p_end_info t.2

/-- The transform requests `ts` made in order, with no look at the error state
in between. -/
def png_set_all {σ ι : Type} (R : png_reader σ ι) (ts : List Transform) (s : σ × read_ctx) :
    σ × read_ctx :=
  ts.foldl (fun s t => png_set R t s) s

/-- Two contexts that an engine call cannot tell apart: the same frame and the
same error flag. -/
def same_core (c c' : read_ctx) : Prop :=
  c.p_block = c'.p_block ∧ c.p_dec.p_sys.b_error = c'.p_dec.p_sys.b_error

/-! ## A minimal engine for concrete runs

An engine for uncompressed streams: five header bytes (width, height, bit depth,
color type, transparency flag) followed by the samples of each row. -/

/-- The state of the minimal engine: the header it parsed, the transparency
flag, and the transforms requested so far. -/
structure raw_png where
  hdr : IHDR
  trns : Nat
  transforms : List Transform
  deriving DecidableEq, Repr

/-- The minimal engine's header parse. -/
def raw_parse (d : List Byte) : raw_png :=
  { hdr := ⟨d.getD 0 0, d.getD 1 0, d.getD 2 0, d.getD 3 0, 0, 0, 0⟩
    trns := d.getD 4 0
    transforms := [] }

/-- The minimal engine's image read: one read of `n` bytes per row pointer,
stored at that pointer. -/
def raw_read_rows (s : raw_png) (n : Nat) :
    List Nat → List (Nat × List Byte) → ReadProg (raw_png × List (Nat × List Byte))
  | [], acc => .ret (s, acc.reverse)
  | p :: ps, acc => .read_data n (fun d => raw_read_rows s n ps ((p, d) :: acc))

/-- The read half of the minimal engine. -/
def raw_reader : png_reader raw_png raw_png where
  png_create_read_struct := raw_parse []
  png_create_info_struct := fun s => s
  png_read_info := fun _ _ => .read_data 5 (fun d => .ret (raw_parse d, raw_parse d))
  png_get_IHDR := fun _ i => .ret i.hdr
  png_get_valid := fun i flag => if i.trns ≠ 0 then flag else 0
  png_set := fun t s => .ret { s with transforms := s.transforms ++ [t] }
  png_read_image := fun s ptrs =>
    raw_read_rows s (s.hdr.i_width * raw_channels s.hdr.i_color_type) ptrs []
  png_read_end := fun s i => .ret (s, i)

/-- The minimal engine's image write: one chunk per row, the `n` bytes at its pointer. -/
def raw_write_rows (s : raw_png) (n : Nat) (mem : Nat → Nat → List Byte) :
    List Nat → WriteProg raw_png
  | [] => .ret s
  | p :: ps => .write_data (mem p n) (raw_write_rows s n mem ps)

/-- The write half of the minimal engine; as libpng does, it reports an error for
a header with a zero width or height. -/
def raw_writer : png_writer raw_png raw_png where
  png_create_write_struct := raw_parse []
  png_create_info_struct := fun s => s
  png_set_IHDR := fun _ _ h =>
    if h.i_width = 0 ∨ h.i_height = 0 then
      .error (.ret { hdr := h, trns := 0, transforms := [] })
    else .ret { hdr := h, trns := 0, transforms := [] }
  png_write_info := fun _ i =>
    .write_data [i.hdr.i_width, i.hdr.i_height, i.hdr.i_bit_depth, i.hdr.i_color_type, 0]
      (.ret i)
  png_write_image := fun s mem ptrs =>
    raw_write_rows s (s.hdr.i_width * raw_channels s.hdr.i_color_type) mem ptrs
  png_write_end := fun s _ => .ret s

/-! ## Concrete inputs -/

/-- A decoder as `OpenDecoder` leaves it. -/
def dec0 : decoder_t :=
  { p_sys := { b_error := false }
    fmt_out := { i_codec := VLC_FOURCC 'R' 'V' '3' '2', video := ⟨0, 0, 0⟩ } }

/-- An allocator that returns a zeroed picture of the requested size, with a
pitch of four bytes per pixel plus four bytes of padding. -/
def alloc0 (p_dec : decoder_t) : Option picture_t :=
  some
    { format := ⟨p_dec.fmt_out.i_codec, p_dec.fmt_out.video.i_width,
        p_dec.fmt_out.video.i_height⟩
      p := { p_pixels := List.replicate
               ((4 * p_dec.fmt_out.video.i_width + 4) * p_dec.fmt_out.video.i_height) 0
             i_pitch := 4 * p_dec.fmt_out.video.i_width + 4 }
      date := 0 }

/-- A frame from its bytes. -/
def frame_of (bytes : List Byte) : block_t :=
  { p_buffer := bytes, i_buffer := bytes.length, i_pts := 0, i_dts := 0 }

/-- A 2x2 RGB, 8-bit, no transparency stream for the minimal engine. -/
def rgb_2x2 : block_t :=
  frame_of [2, 2, 8, 2, 0, 1, 2, 3, 4, 5, 6, 7, 8, 9, 10, 11, 12]

/-- A 1x1 RGB with alpha, 8-bit stream. -/
def rgba_1x1 : block_t := frame_of [1, 1, 8, 6, 0, 1, 2, 3, 4]

/-- A 1x1 gray with alpha, 8-bit stream. -/
def ga_1x1 : block_t := frame_of [1, 1, 8, 4, 0, 77, 200]

/-- A 1x1 RGB stream cut after the header. -/
def rgb_1x1_cut : block_t := frame_of [1, 1, 8, 2, 0]


/-- A frame of three bytes, all remaining. -/
def frame3 : read_ctx :=
  { p_block := { p_buffer := [10, 20, 30], i_buffer := 3, i_pts := 0, i_dts := 0 }
    p_dec := { p_sys := { b_error := false }, fmt_out := { i_codec := 0, video := ⟨0, 0, 0⟩ } }
    log := [] }

/-- An encoder as `OpenEncoder` leaves it. -/
def enc0 : encoder_t :=
  { p_sys := { p_chain := [], date := 0, b_error := false }
    fmt_out := { i_codec := VLC_FOURCC 'p' 'n' 'g' ' ', video := ⟨0, 0, 0⟩ }
    b_force := false }

/-- A 2x2 RV24 picture with a pitch of 8 bytes, dated 7. -/
def pic_2x2 : picture_t :=
  { format := ⟨VLC_FOURCC 'R' 'V' '2' '4', 2, 2⟩
    p := { p_pixels := [1, 2, 3, 4, 5, 6, 0, 0, 7, 8, 9, 10, 11, 12, 0, 0], i_pitch := 8 }
    date := 7 }

/-- A picture whose format says zero width and one row, dated 7. -/
def pic_0x1 : picture_t :=
  { format := ⟨VLC_FOURCC 'R' 'V' '2' '4', 0, 1⟩
    p := { p_pixels := [], i_pitch := 0 }
    date := 7 }

/-- A 2x0 RGB stream: a header with a zero height. -/
def rgb_2x0 : block_t := frame_of [2, 0, 8, 2, 0]

/-! ## Facts about the machine integers -/

theorem to_int_of_range (z : Int) (h0 : -2147483648 ≤ z) (h1 : z ≤ INT_MAX) :
    to_int z = z := by
  unfold INT_MAX at h1
  unfold to_int
  omega

theorem to_size_of_range (z : Int) (h0 : 0 ≤ z) (h1 : z ≤ INT_MAX) :
    to_size z = z.toNat := by
  unfold INT_MAX at h1
  unfold to_size
  congr 1
  omega

/-- Whether `user_read` takes its error branch, for a request and a remaining
count that are both representable and non-negative. -/
theorem user_read_short (i_buffer : Int) (N : Nat) (h0 : 0 ≤ i_buffer)
    (h1 : i_buffer ≤ INT_MAX) (hN : (N : Int) ≤ INT_MAX) :
    (N != to_size (MIN i_buffer (to_int N))) = decide (i_buffer < N) := by
  have hN2 : to_int (N : Int) = N := to_int_of_range _ (by omega) hN
  rw [hN2]
  unfold MIN
  by_cases h : i_buffer < (N : Int)
  · rw [if_pos h, to_size_of_range _ h0 h1]
    simp only [h, decide_True, bne_iff_ne, ne_eq]
    omega
  · rw [if_neg h, to_size_of_range _ (by omega) hN]
    simp [h]

/-- The shape of one `user_read` call: one `read_data` event, followed by the
error dispatch exactly when the call was short. -/
theorem user_read_log (c : read_ctx) (n : Nat) :
    ∃ short : Bool,
      (user_read c n).2.log =
        c.log ++ (Event.read_data n short ::
          if short then [Event.png_error, Event.b_error_set true, Event.msg_Err] else []) ∧
      (user_read c n).2.p_dec.p_sys.b_error = (c.p_dec.p_sys.b_error || short) ∧
      (user_read c n).2.p_dec.fmt_out = c.p_dec.fmt_out := by
  refine ⟨n != to_size (MIN c.p_block.i_buffer (to_int n)), ?_⟩
  unfold user_read
  by_cases h : (n != to_size (MIN c.p_block.i_buffer (to_int n))) = true
  · simp [h, png_error, user_error]
  · simp only [Bool.not_eq_true] at h
    simp [h]

/-! ## Every engine call respects the callback interface -/

theorem engine_trace_nil (b : Bool) : engine_trace b b [] :=
  ⟨by simp, by simp, by simp⟩

theorem engine_trace_append {b0 b1 b2 : Bool} {e1 e2 : List Event}
    (h1 : engine_trace b0 b1 e1) (h2 : engine_trace b1 b2 e2) :
    engine_trace b0 b2 (e1 ++ e2) := by
  refine ⟨?_, ?_, ?_⟩
  · intro e he
    rcases List.mem_append.1 he with h | h
    · exact h1.engine e h
    · exact h2.engine e h
  · rw [h2.flag, h1.flag]
    by_cases ha : Event.b_error_set true ∈ e1 <;> by_cases hb : Event.b_error_set true ∈ e2 <;>
      simp [ha, hb]
  · intro n hn
    rcases List.mem_append.1 hn with h | h
    · exact List.mem_append.2 (Or.inl (h1.short n h))
    · exact List.mem_append.2 (Or.inr (h2.short n h))

theorem requested_append (e1 e2 : List Event) :
    requested (e1 ++ e2) = requested e1 ++ requested e2 := by
  simp [requested, List.filterMap_append]

theorem engine_log_refl (c : read_ctx) : engine_log c c [] :=
  ⟨[], by simp, engine_trace_nil _, rfl⟩

theorem engine_log_trans {c1 c2 c3 : read_ctx} {t1 t2 : List Transform}
    (h1 : engine_log c1 c2 t1) (h2 : engine_log c2 c3 t2) :
    engine_log c1 c3 (t1 ++ t2) := by
  obtain ⟨e1, hl1, ht1, hr1⟩ := h1
  obtain ⟨e2, hl2, ht2, hr2⟩ := h2
  refine ⟨e1 ++ e2, ?_, engine_trace_append ht1 ht2, ?_⟩
  · rw [hl2, hl1, List.append_assoc]
  · rw [requested_append, hr1, hr2]

theorem engine_step_refl (c : read_ctx) : engine_step c c [] :=
  ⟨engine_log_refl c, rfl⟩

theorem engine_step_trans {c1 c2 c3 : read_ctx} {t1 t2 : List Transform}
    (h1 : engine_step c1 c2 t1) (h2 : engine_step c2 c3 t2) :
    engine_step c1 c3 (t1 ++ t2) :=
  ⟨engine_log_trans h1.log h2.log, by rw [h2.fmt, h1.fmt]⟩

theorem engine_step_user_read (c : read_ctx) (n : Nat) :
    engine_step c (user_read c n).2 [] := by
  obtain ⟨short, hlog, hb, hf⟩ := user_read_log c n
  refine ⟨⟨_, hlog, ?_, ?_⟩, hf⟩
  · cases short
    · exact ⟨by simp [Event.is_engine], by simp [hb], by simp⟩
    · exact ⟨by simp [Event.is_engine], by simp [hb], by simp⟩
  · cases short <;> simp [requested]

theorem engine_step_png_error (c : read_ctx) : engine_step c (png_error c) [] := by
  refine ⟨⟨[Event.png_error, Event.b_error_set true, Event.msg_Err], ?_, ⟨?_, ?_, ?_⟩, ?_⟩, ?_⟩
  · simp [png_error, user_error]
  · simp [Event.is_engine]
  · simp [png_error, user_error]
  · simp
  · simp [requested]
  · simp [png_error, user_error]

theorem engine_step_user_warning (c : read_ctx) : engine_step c (user_warning c) [] := by
  refine ⟨⟨[Event.msg_Warn], ?_, ⟨?_, ?_, ?_⟩, ?_⟩, ?_⟩
  · simp [user_warning]
  · simp [Event.is_engine]
  · simp [user_warning]
  · simp
  · simp [requested]
  · simp [user_warning]

/-- Every engine call, whatever the engine does, only adds callback events, can
raise the flag but never lower it, and leaves the output format alone. -/
theorem engine_step_run {α : Type} (p : ReadProg α) :
    ∀ c : read_ctx, engine_step c (p.run c).2 [] := by
  induction p with
  | ret a =>
    intro c
    exact engine_step_refl c
  | read_data n k ih =>
    intro c
    simp only [ReadProg.run]
    exact engine_step_trans (engine_step_user_read c n) (ih _ _)
  | error k ih =>
    intro c
    simp only [ReadProg.run]
    exact engine_step_trans (engine_step_png_error c) (ih _)
  | warning k ih =>
    intro c
    simp only [ReadProg.run]
    exact engine_step_trans (engine_step_user_warning c) (ih _)

/-- A transform request adds its own event, then behaves as an engine call. -/
theorem engine_step_png_set {σ ι : Type} (R : png_reader σ ι) (t : Transform)
    (s : σ × read_ctx) : engine_step s.2 (png_set R t s).2 [t] := by
  have h0 : engine_step s.2 { s.2 with log := s.2.log ++ [Event.png_set t] } [t] :=
    ⟨⟨[Event.png_set t], rfl, ⟨by simp [Event.is_engine], by simp, by simp⟩,
      by simp [requested]⟩, rfl⟩
  have h1 := engine_step_run (R.png_set t s.1) { s.2 with log := s.2.log ++ [Event.png_set t] }
  have := engine_step_trans h0 h1
  simpa [png_set] using this

/-- A transform request made under a condition. -/
theorem engine_step_cond {σ ι : Type} (R : png_reader σ ι) (t : Transform)
    (s : σ × read_ctx) (b : Prop) [Decidable b] :
    engine_step s.2 (if b then png_set R t s else s).2 (if b then [t] else []) := by
  by_cases hb : b
  · simp only [hb, if_true]
    exact engine_step_png_set R t s
  · simp only [hb, if_false]
    exact engine_step_refl _

/-! ## The transform selection of `DecodeBlock` -/

theorem engine_log_congr {c c' : read_ctx} {ts ts' : List Transform}
    (h : engine_log c c' ts) (e : ts = ts') : engine_log c c' ts' := e ▸ h

theorem RV24_ne_RV32 : VLC_FOURCC 'R' 'V' '2' '4' ≠ VLC_FOURCC 'R' 'V' '3' '2' := by decide

/-- Lines 171-194 in one statement, from a context whose chroma is RV32 as line
166 sets it: the requests made are `transforms_of`, in that order, the chroma
chosen is `chroma_of`, and the video properties are kept. -/
theorem DecodeBlock_requests_spec {σ ι : Type} (R : png_reader σ ι) (h : IHDR) (valid : Nat)
    (s0 : σ × read_ctx) (hc0 : s0.2.p_dec.fmt_out.i_codec = VLC_FOURCC 'R' 'V' '3' '2') :
    engine_log s0.2 (DecodeBlock_requests R h valid s0).2 (transforms_of h valid) ∧
    (DecodeBlock_requests R h valid s0).2.p_dec.fmt_out =
      es_format_t.mk (chroma_of h valid) s0.2.p_dec.fmt_out.video := by
  have l0 : engine_log s0.2 s0.2 [] := engine_log_refl _
  have f0 : s0.2.p_dec.fmt_out = es_format_t.mk (VLC_FOURCC 'R' 'V' '3' '2')
      s0.2.p_dec.fmt_out.video := by rw [← hc0]
  let s1 := if h.i_color_type = PNG_COLOR_TYPE_PALETTE then png_set R .palette_to_rgb s0 else s0
  have e1 := engine_step_cond R .palette_to_rgb s0 (h.i_color_type = PNG_COLOR_TYPE_PALETTE)
  let s2 := if h.i_color_type = PNG_COLOR_TYPE_GRAY ∨ h.i_color_type = PNG_COLOR_TYPE_GRAY_ALPHA
    then png_set R .gray_to_rgb s1 else s1
  have e2 := engine_step_cond R .gray_to_rgb s1
    (h.i_color_type = PNG_COLOR_TYPE_GRAY ∨ h.i_color_type = PNG_COLOR_TYPE_GRAY_ALPHA)
  let s3 := if h.i_bit_depth = 16 then png_set R .strip_16 s2 else s2
  have e3 := engine_step_cond R .strip_16 s2 (h.i_bit_depth = 16)
  have e123 := engine_step_trans (engine_step_trans e1 e2) e3
  have l3 := engine_log_trans l0 e123.log
  have f3 : s3.2.p_dec.fmt_out = es_format_t.mk (VLC_FOURCC 'R' 'V' '3' '2')
      s0.2.p_dec.fmt_out.video := by
    rw [e123.fmt]; exact f0
  have key : DecodeBlock_requests R h valid s0 =
      (let s4 := if valid ≠ 0 then png_set R .tRNS_to_alpha s3
        else if h.i_color_type &&& PNG_COLOR_MASK_ALPHA = 0 then
          (s3.1, { s3.2 with p_dec := { s3.2.p_dec with fmt_out :=
            { s3.2.p_dec.fmt_out with i_codec := VLC_FOURCC 'R' 'V' '2' '4' } } })
        else s3
       if h.i_color_type &&& PNG_COLOR_MASK_COLOR ≠ 0 ∧
          s4.2.p_dec.fmt_out.i_codec ≠ VLC_FOURCC 'R' 'V' '2' '4' then
        png_set R .bgr s4
       else s4) := rfl
  rw [key]
  clear key
  simp only [List.nil_append] at l3
  by_cases hv : valid ≠ 0
  · -- transparency chunk present: RV32 stays
    have e4 := engine_step_png_set R .tRNS_to_alpha s3
    have f4 : (png_set R .tRNS_to_alpha s3).2.p_dec.fmt_out.i_codec = VLC_FOURCC 'R' 'V' '3' '2' := by
      rw [e4.fmt, f3]
    have e5 := engine_step_cond R .bgr (png_set R .tRNS_to_alpha s3)
      (h.i_color_type &&& PNG_COLOR_MASK_COLOR ≠ 0 ∧
        (png_set R .tRNS_to_alpha s3).2.p_dec.fmt_out.i_codec ≠ VLC_FOURCC 'R' 'V' '2' '4')
    dsimp only
    rw [if_pos hv]
    have l5 := engine_log_trans (engine_log_trans l3 e4.log) e5.log
    refine ⟨?_, ?_⟩
    · refine engine_log_congr l5 ?_
      unfold transforms_of
      rw [f4]
      simp [hv, RV24_ne_RV32.symm]
    · rw [e5.fmt, e4.fmt, f3]
      simp [chroma_of, hv]
  · dsimp only
    rw [if_neg hv]
    by_cases ha : h.i_color_type &&& PNG_COLOR_MASK_ALPHA = 0
    · -- no alpha channel: RV24, and no swap
      rw [if_pos ha]
      refine ⟨?_, ?_⟩
      · simp only [ne_eq, not_true_eq_false, and_false, if_false]
        refine engine_log_congr l3 ?_
        unfold transforms_of
        simp [hv, ha]
      · simp only [ne_eq, not_true_eq_false, and_false, if_false]
        rw [f3]
        simp [chroma_of, hv, ha]
    · -- explicit alpha channel: RV32 stays
      rw [if_neg ha]
      have f4 : s3.2.p_dec.fmt_out.i_codec = VLC_FOURCC 'R' 'V' '3' '2' := by rw [f3]
      have e5 := engine_step_cond R .bgr s3
        (h.i_color_type &&& PNG_COLOR_MASK_COLOR ≠ 0 ∧
          s3.2.p_dec.fmt_out.i_codec ≠ VLC_FOURCC 'R' 'V' '2' '4')
      have l5 := engine_log_trans l3 e5.log
      refine ⟨?_, ?_⟩
      · refine engine_log_congr l5 ?_
        unfold transforms_of
        rw [f4]
        simp [hv, ha, RV24_ne_RV32.symm]
      · rw [e5.fmt, f3]
        simp [chroma_of, hv, ha]

/-! ## The read callback -/

/-- The read callback on a representable request and a well-formed frame. -/
theorem user_read_of_range (c : read_ctx) (N R : Nat)
    (hR : c.p_block.i_buffer = (R : Int)) (hmax : (R : Int) ≤ INT_MAX)
    (hmem : R ≤ c.p_block.p_buffer.length) (hN : (N : Int) ≤ INT_MAX) :
    (user_read c N).2.log = c.log ++ (Event.read_data N (decide (R < N)) ::
        if R < N then [Event.png_error, Event.b_error_set true, Event.msg_Err] else []) ∧
    (Event.png_error ∈ (user_read c N).2.log.drop c.log.length ↔ R < N) ∧
    ((user_read c N).2.p_dec.p_sys.b_error = (c.p_dec.p_sys.b_error || decide (R < N))) ∧
    (N ≤ R → (user_read c N).1 = c.p_block.p_buffer.take N ∧
      (user_read c N).1.length = N ∧
      (user_read c N).2.p_block.i_buffer = ((R - N : Nat) : Int) ∧
      0 ≤ (user_read c N).2.p_block.i_buffer) ∧
    (user_read c N).2.p_block.p_buffer = c.p_block.p_buffer.drop N := by
  have hs := user_read_short c.p_block.i_buffer N (by omega) (by omega) hN
  have hd : decide (c.p_block.i_buffer < (N : Int)) = decide (R < N) := by
    rw [hR]; simp
  rw [hd] at hs
  have hlog : (user_read c N).2.log = c.log ++ (Event.read_data N (decide (R < N)) ::
        if R < N then [Event.png_error, Event.b_error_set true, Event.msg_Err] else []) := by
    unfold user_read
    simp only [hs]
    by_cases h : R < N
    · simp [h, png_error, user_error]
    · simp [h]
  refine ⟨hlog, ?_, ?_, ?_, ?_⟩
  · rw [hlog]
    by_cases h : R < N <;> simp [h]
  · unfold user_read
    simp only [hs]
    by_cases h : R < N
    · simp [h, png_error, user_error]
    · simp [h]
  · intro hle
    have hnot : ¬ R < N := by omega
    unfold user_read
    simp only [hs]
    simp only [hnot, decide_False, Bool.false_eq_true, if_false]
    refine ⟨trivial, ?_, ?_, ?_⟩
    · simp; omega
    · rw [hR, to_int_of_range _ (by omega) (by unfold INT_MAX at *; omega)]
      omega
    · rw [hR, to_int_of_range _ (by omega) (by unfold INT_MAX at *; omega)]
      omega
  · unfold user_read
    simp only [hs]
    by_cases h : R < N
    · simp [h, png_error, user_error]
    · simp [h]

/-- C5: for a request of `N` bytes (`0 <= N <= INT_MAX`) on a frame with `R >= 0`
bytes remaining, `user_read` dispatches the error to the engine exactly when
`R < N`; when `R >= N` it delivers exactly the next `N` bytes, and leaves
`R - N >= 0` remaining; in every case the cursor advances by `N`, never backwards. -/
theorem user_read_contract (c : read_ctx) (N R : Nat)
    (hR : c.p_block.i_buffer = (R : Int)) (hmax : (R : Int) ≤ INT_MAX)
    (hmem : R ≤ c.p_block.p_buffer.length) (hN : (N : Int) ≤ INT_MAX) :
    (user_read c N).2.log = c.log ++ (Event.read_data N (decide (R < N)) ::
        if R < N then [Event.png_error, Event.b_error_set true, Event.msg_Err] else []) ∧
    (Event.png_error ∈ (user_read c N).2.log.drop c.log.length ↔ R < N) ∧
    ((user_read c N).2.p_dec.p_sys.b_error = (c.p_dec.p_sys.b_error || decide (R < N))) ∧
    (N ≤ R → (user_read c N).1 = c.p_block.p_buffer.take N ∧
      (user_read c N).1.length = N ∧
      (user_read c N).2.p_block.i_buffer = ((R - N : Nat) : Int) ∧
      0 ≤ (user_read c N).2.p_block.i_buffer) ∧
    (user_read c N).2.p_block.p_buffer = c.p_block.p_buffer.drop N :=
  user_read_of_range c N R hR hmax hmem hN

theorem user_read_contract_witness :
    (user_read frame3 2).1 = [10, 20] ∧ (user_read frame3 2).2.p_block.i_buffer = 1 ∧
    (user_read frame3 2).2.p_block.p_buffer = [30] ∧
    (user_read frame3 2).2.log = [Event.read_data 2 false] := by
  have h := user_read_contract frame3 2 3 rfl (by decide) (by decide) (by decide)
  refine ⟨(h.2.2.2.1 (by decide)).1, ?_, ?_, ?_⟩
  · simpa using (h.2.2.2.1 (by decide)).2.2.1
  · exact h.2.2.2.2
  · simpa using h.1

/-- The header stage only runs engine calls on the entry context; it succeeds
exactly when the flag is still down after the header fetch. -/
theorem DecodeBlock_header_ok {σ ι : Type} (R : png_reader σ ι) (p_dec : decoder_t)
    (p_block : block_t) (h : IHDR) (p_png : σ) (p_info p_end_info : ι) (c : read_ctx)
    (hk : DecodeBlock_header R p_dec p_block = .ok (h, p_png, p_info, p_end_info, c)) :
    engine_step (DecodeBlock_entry p_dec p_block) c [] ∧ c.p_dec.p_sys.b_error = false := by
  unfold DecodeBlock_header at hk
  dsimp only at hk
  split at hk
  · cases hk
  · split at hk
    · cases hk
    · rename_i h1 h2
      injection hk with hk
      injection hk with _ hk
      injection hk with _ hk
      injection hk with _ hk
      injection hk with _ hk
      subst hk
      refine ⟨?_, by simpa using h2⟩
      have a := engine_step_run (R.png_read_info R.png_create_read_struct
        (R.png_create_info_struct R.png_create_read_struct)) (DecodeBlock_entry p_dec p_block)
      have b := engine_step_run (R.png_get_IHDR
        ((R.png_read_info R.png_create_read_struct
          (R.png_create_info_struct R.png_create_read_struct)).run
            (DecodeBlock_entry p_dec p_block)).1.1
        ((R.png_read_info R.png_create_read_struct
          (R.png_create_info_struct R.png_create_read_struct)).run
            (DecodeBlock_entry p_dec p_block)).1.2)
        ((R.png_read_info R.png_create_read_struct
          (R.png_create_info_struct R.png_create_read_struct)).run
            (DecodeBlock_entry p_dec p_block)).2
      exact engine_step_trans a b

theorem DecodeBlock_header_error {σ ι : Type} (R : png_reader σ ι) (p_dec : decoder_t)
    (p_block : block_t) (c : read_ctx)
    (hk : DecodeBlock_header R p_dec p_block = .error c) :
    engine_step (DecodeBlock_entry p_dec p_block) c [] ∧ c.p_dec.p_sys.b_error = true := by
  unfold DecodeBlock_header at hk
  dsimp only at hk
  have a := engine_step_run (R.png_read_info R.png_create_read_struct
    (R.png_create_info_struct R.png_create_read_struct)) (DecodeBlock_entry p_dec p_block)
  split at hk
  · rename_i h1
    injection hk with hk
    subst hk
    exact ⟨a, h1⟩
  · split at hk
    · rename_i h1 h2
      injection hk with hk
      subst hk
      refine ⟨?_, h2⟩
      have b := engine_step_run (R.png_get_IHDR
        ((R.png_read_info R.png_create_read_struct
          (R.png_create_info_struct R.png_create_read_struct)).run
            (DecodeBlock_entry p_dec p_block)).1.1
        ((R.png_read_info R.png_create_read_struct
          (R.png_create_info_struct R.png_create_read_struct)).run
            (DecodeBlock_entry p_dec p_block)).1.2)
        ((R.png_read_info R.png_create_read_struct
          (R.png_create_info_struct R.png_create_read_struct)).run
            (DecodeBlock_entry p_dec p_block)).2
      exact engine_step_trans a b
    · cases hk

/-- Lines 196-222 in one statement. -/
theorem DecodeBlock_picture_spec {σ ι : Type} (R : png_reader σ ι)
    (pf_vout_buffer_new : decoder_t → Option picture_t)
    (h : IHDR) (p_png : σ) (p_end_info : ι) (c : read_ctx) :
    ∃ mid post b2,
      (DecodeBlock_picture R pf_vout_buffer_new h p_png p_end_info c).log =
        c.log ++ (mid ++ post ++ [Event.png_destroy_read_struct, Event.block_Release]) ∧
      engine_trace c.p_dec.p_sys.b_error b2 post ∧ requested post = [] ∧
      (mid = [Event.vout_buffer_new false] ∧ post = [] ∨ mid = [Event.vout_buffer_new true]) ∧
      ((DecodeBlock_picture R pf_vout_buffer_new h p_png p_end_info c).p_pic.isSome = true ↔
        (mid = [Event.vout_buffer_new true] ∧ b2 = false)) ∧
      (DecodeBlock_picture R pf_vout_buffer_new h p_png p_end_info c).pp_block = some none ∧
      (DecodeBlock_picture R pf_vout_buffer_new h p_png p_end_info c).p_dec.fmt_out =
        c.p_dec.fmt_out := by
  unfold DecodeBlock_picture
  cases hp : pf_vout_buffer_new c.p_dec with
  | none =>
    refine ⟨[Event.vout_buffer_new false], [], c.p_dec.p_sys.b_error, ?_, engine_trace_nil _,
      rfl, Or.inl ⟨rfl, rfl⟩, ?_, rfl, rfl⟩
    · simp [DecodeBlock_error]
    · simp [DecodeBlock_error]
  | some p_pic =>
    dsimp only
    -- the image read
    have a := engine_step_run (R.png_read_image p_png (row_pointers p_pic.p.i_pitch h.i_height))
      { c with log := c.log ++ [Event.vout_buffer_new true] }
    obtain ⟨⟨ea, hla, hta, hra⟩, hfa⟩ := a
    split
    · rename_i h1
      refine ⟨[Event.vout_buffer_new true], ea, true, ?_, ?_, hra, Or.inr rfl, ?_, rfl, ?_⟩
      · simp [DecodeBlock_error, hla]
      · rw [← h1]; exact hta
      · simp [DecodeBlock_error]
      · simpa [DecodeBlock_error] using hfa
    · rename_i h1
      have b := engine_step_run (R.png_read_end
        ((R.png_read_image p_png (row_pointers p_pic.p.i_pitch h.i_height)).run
          { c with log := c.log ++ [Event.vout_buffer_new true] }).1.1 p_end_info)
        ((R.png_read_image p_png (row_pointers p_pic.p.i_pitch h.i_height)).run
          { c with log := c.log ++ [Event.vout_buffer_new true] }).2
      obtain ⟨⟨eb, hlb, htb, hrb⟩, hfb⟩ := b
      have hab := engine_trace_append hta htb
      split
      · rename_i h2
        refine ⟨[Event.vout_buffer_new true], ea ++ eb, true, ?_, ?_, ?_, Or.inr rfl, ?_, rfl, ?_⟩
        · simp [DecodeBlock_error, hlb, hla]
        · rw [← h2]; exact hab
        · rw [requested_append, hra, hrb]; rfl
        · simp [DecodeBlock_error]
        · simp only [DecodeBlock_error]
          rw [hfb, hfa]
      · rename_i h2
        refine ⟨[Event.vout_buffer_new true], ea ++ eb, false, ?_, ?_, ?_, Or.inr rfl, ?_, rfl, ?_⟩
        · simp [hlb, hla]
        · simp only [Bool.not_eq_true] at h2
          rw [← h2]; exact hab
        · rw [requested_append, hra, hrb]; rfl
        · simp
        · dsimp only
          rw [hfb, hfa]

theorem set_output_properties_some (h : IHDR) (p_dec : decoder_t)
    (hz : to_u32 h.i_height ≠ 0) :
    ∃ d, set_output_properties h p_dec = some d ∧ d.p_sys = p_dec.p_sys ∧
      d.fmt_out.i_codec = VLC_FOURCC 'R' 'V' '3' '2' ∧
      ∀ valid, format_spec h valid = some (es_format_t.mk (chroma_of h valid) d.fmt_out.video) := by
  refine ⟨{ p_dec with
      fmt_out :=
        { i_codec := VLC_FOURCC 'R' 'V' '3' '2'
          video :=
            { i_width := to_u32 h.i_width
              i_height := to_u32 h.i_height
              i_aspect :=
                to_u32 (to_u32 (VOUT_ASPECT_FACTOR * to_u32 h.i_width) / to_u32 h.i_height) } } },
    by unfold set_output_properties; rw [if_neg hz], rfl, rfl, ?_⟩
  intro valid
  unfold format_spec
  rw [if_neg hz]

theorem DecodeBlock_shape_error {σ ι : Type} (R : png_reader σ ι)
    (pf_vout_buffer_new : decoder_t → Option picture_t) (p_dec : decoder_t)
    (p_block : block_t) (c : read_ctx)
    (hk : DecodeBlock_header R p_dec p_block = .error c) :
    ∃ r pre, DecodeBlock R pf_vout_buffer_new p_dec (some (some p_block)) = some r ∧
      decode_shape r pre [] [] true true := by
  obtain ⟨⟨⟨pre, hl, ht, _⟩, _⟩, hb⟩ := DecodeBlock_header_error R p_dec p_block c hk
  have hr : DecodeBlock R pf_vout_buffer_new p_dec (some (some p_block)) =
      some (DecodeBlock_error c) := by
    simp only [DecodeBlock, hk]
  refine ⟨_, pre, hr, ?_, ?_, engine_trace_nil _, rfl, Or.inl ⟨rfl, rfl, rfl⟩, ?_, rfl⟩
  · simp [DecodeBlock_error, hl, DecodeBlock_entry]
  · rw [← hb]; exact ht
  · simp [DecodeBlock_error]

theorem DecodeBlock_shape_ok {σ ι : Type} (R : png_reader σ ι)
    (pf_vout_buffer_new : decoder_t → Option picture_t) (p_dec : decoder_t)
    (p_block : block_t) (h : IHDR) (p_png : σ) (p_info p_end_info : ι) (c : read_ctx)
    (hk : DecodeBlock_header R p_dec p_block = .ok (h, p_png, p_info, p_end_info, c))
    (hz : to_u32 h.i_height ≠ 0) :
    ∃ r pre mid post b1 b2,
      DecodeBlock R pf_vout_buffer_new p_dec (some (some p_block)) = some r ∧
      decode_shape r pre mid post b1 b2 ∧
      mid ≠ [] ∧
      requested pre = transforms_of h (R.png_get_valid p_info PNG_INFO_tRNS) ∧
      format_spec h (R.png_get_valid p_info PNG_INFO_tRNS) = some r.p_dec.fmt_out := by
  obtain ⟨⟨⟨e1, hl1, ht1, hr1⟩, hf1⟩, hb⟩ := DecodeBlock_header_ok R p_dec p_block h p_png p_info
    p_end_info c hk
  obtain ⟨d, hd, hdsys, hdc, hdf⟩ := set_output_properties_some h c.p_dec hz
  obtain ⟨⟨e2, hl2, ht2, hr2⟩, hf2⟩ :=
    DecodeBlock_requests_spec R h (R.png_get_valid p_info PNG_INFO_tRNS)
      (p_png, { c with p_dec := d }) hdc
  obtain ⟨mid, post, b2, hl3, ht3, hr3, hm, hp, hpp, hf3⟩ :=
    DecodeBlock_picture_spec R pf_vout_buffer_new h
      (DecodeBlock_requests R h (R.png_get_valid p_info PNG_INFO_tRNS)
        (p_png, { c with p_dec := d })).1 p_end_info
      (DecodeBlock_requests R h (R.png_get_valid p_info PNG_INFO_tRNS)
        (p_png, { c with p_dec := d })).2
  have hr : DecodeBlock R pf_vout_buffer_new p_dec (some (some p_block)) =
      some (DecodeBlock_picture R pf_vout_buffer_new h
      (DecodeBlock_requests R h (R.png_get_valid p_info PNG_INFO_tRNS)
        (p_png, { c with p_dec := d })).1 p_end_info
      (DecodeBlock_requests R h (R.png_get_valid p_info PNG_INFO_tRNS)
        (p_png, { c with p_dec := d })).2) := by
    simp only [DecodeBlock, hk, DecodeBlock_select, hd]
  refine ⟨_, e1 ++ e2, mid, post,
    (DecodeBlock_requests R h (R.png_get_valid p_info PNG_INFO_tRNS)
      (p_png, { c with p_dec := d })).2.p_dec.p_sys.b_error,
    b2, hr, ⟨?_, ?_, ht3, hr3, ?_, hp, hpp⟩, ?_, ?_, ?_⟩
  · rw [hl3, hl2]
    dsimp only
    rw [hl1]
    simp [DecodeBlock_entry]
  · have h2 : engine_trace c.p_dec.p_sys.b_error
        (DecodeBlock_requests R h (R.png_get_valid p_info PNG_INFO_tRNS)
          (p_png, { c with p_dec := d })).2.p_dec.p_sys.b_error e2 := by
      have := ht2
      dsimp only at this
      rw [hdsys] at this
      exact this
    have := engine_trace_append ht1 h2
    simpa [DecodeBlock_entry] using this
  · rcases hm with hm | hm
    · exact Or.inr (Or.inl hm)
    · exact Or.inr (Or.inr hm)
  · rcases hm with hm | hm
    · rw [hm.1]; simp
    · rw [hm]; simp
  · rw [requested_append, hr1, hr2]; rfl
  · rw [hf3, hf2]
    exact hdf _

/-- A header with a zero height: the division of line 169 traps and the call
does not return. -/
theorem DecodeBlock_trap {σ ι : Type} (R : png_reader σ ι)
    (pf_vout_buffer_new : decoder_t → Option picture_t) (p_dec : decoder_t)
    (p_block : block_t) (h : IHDR) (p_png : σ) (p_info p_end_info : ι) (c : read_ctx)
    (hk : DecodeBlock_header R p_dec p_block = .ok (h, p_png, p_info, p_end_info, c))
    (hz : to_u32 h.i_height = 0) :
    DecodeBlock R pf_vout_buffer_new p_dec (some (some p_block)) = none := by
  simp only [DecodeBlock, hk, DecodeBlock_select, set_output_properties, hz, if_true]

/-- When the header stage succeeds with a non-zero height, the call returns and
has the shape of a full run, with the transform requests and the output format
determined by the header. -/
theorem DecodeBlock_of_header {σ ι : Type} (R : png_reader σ ι)
    (pf_vout_buffer_new : decoder_t → Option picture_t) (p_dec : decoder_t)
    (p_block : block_t) (h : IHDR) (valid : Nat)
    (hk : header_of R p_dec p_block = some (h, valid))
    (hz : to_u32 h.i_height ≠ 0) :
    ∃ r pre mid post b1 b2,
      DecodeBlock R pf_vout_buffer_new p_dec (some (some p_block)) = some r ∧
      decode_shape r pre mid post b1 b2 ∧
      mid ≠ [] ∧
      requested pre = transforms_of h valid ∧
      format_spec h valid = some r.p_dec.fmt_out := by
  unfold header_of at hk
  split at hk
  · rename_i h' p_png p_info p_end_info c hh
    injection hk with hk
    injection hk with e1 e2
    subst e1 e2
    exact DecodeBlock_shape_ok R pf_vout_buffer_new p_dec p_block h' p_png p_info p_end_info c
      hh hz
  · cases hk

/-- The output format of a header with a non-zero height, by fields. -/
theorem format_spec_some (h : IHDR) (valid : Nat) (f : es_format_t)
    (hf : format_spec h valid = some f) :
    f.i_codec = chroma_of h valid ∧ f.video.i_width = to_u32 h.i_width ∧
    f.video.i_height = to_u32 h.i_height ∧
    f.video.i_aspect =
      to_u32 (to_u32 (VOUT_ASPECT_FACTOR * to_u32 h.i_width) / to_u32 h.i_height) := by
  unfold format_spec at hf
  split at hf
  · cases hf
  · injection hf with hf
    subst hf
    exact ⟨rfl, rfl, rfl, rfl⟩

theorem mem_requested (t : Transform) (evs : List Event) :
    t ∈ requested evs ↔ Event.png_set t ∈ evs := by
  unfold requested
  rw [List.mem_filterMap]
  constructor
  · rintro ⟨e, he, h⟩
    cases e <;> simp at h
    subst h
    exact he
  · intro h
    exact ⟨_, h, rfl⟩

/-- All transform requests of a call are in its first stage. -/
theorem requested_of_shape {r : decode_result} {pre mid post : List Event} {b1 b2 : Bool}
    (s : decode_shape r pre mid post b1 b2) : requested r.log = requested pre := by
  rw [s.log]
  have hm : requested mid = [] := by
    rcases s.mid_cases with h | h | h
    · rw [h.1]; rfl
    · rw [h.1]; rfl
    · rw [h]; rfl
  have hc : requested (Event.b_error_set false :: (pre ++ (mid ++ post ++
      [Event.png_destroy_read_struct, Event.block_Release]))) =
      requested pre ++ (requested mid ++ requested post ++
        requested [Event.png_destroy_read_struct, Event.block_Release]) := by
    rw [← requested_append, ← requested_append, ← requested_append]
    rfl
  rw [hc, hm, s.post_requested]
  simp [requested]

/-! ## The decision table, by color type -/

theorem chroma_of_table (h : IHDR) (valid : Nat)
    (hct : h.i_color_type ∈ [PNG_COLOR_TYPE_GRAY, PNG_COLOR_TYPE_GRAY_ALPHA,
      PNG_COLOR_TYPE_PALETTE, PNG_COLOR_TYPE_RGB, PNG_COLOR_TYPE_RGB_ALPHA]) :
    (chroma_of h valid = VLC_FOURCC 'R' 'V' '3' '2' ↔
      (valid ≠ 0 ∨ h.i_color_type = PNG_COLOR_TYPE_GRAY_ALPHA ∨
        h.i_color_type = PNG_COLOR_TYPE_RGB_ALPHA)) ∧
    (¬ (valid ≠ 0 ∨ h.i_color_type = PNG_COLOR_TYPE_GRAY_ALPHA ∨
        h.i_color_type = PNG_COLOR_TYPE_RGB_ALPHA) →
      chroma_of h valid = VLC_FOURCC 'R' 'V' '2' '4') := by
  simp only [chroma_of]
  have hne := RV24_ne_RV32
  by_cases hv : valid ≠ 0
  · simp [hv]
  · simp only [List.mem_cons, List.mem_singleton, List.not_mem_nil, or_false] at hct
    rcases hct with e | e | e | e | e <;> rw [e] <;>
      simp [hv, hne, PNG_COLOR_TYPE_GRAY, PNG_COLOR_TYPE_GRAY_ALPHA, PNG_COLOR_TYPE_PALETTE,
        PNG_COLOR_TYPE_RGB, PNG_COLOR_TYPE_RGB_ALPHA, PNG_COLOR_MASK_ALPHA,
        PNG_COLOR_MASK_COLOR, PNG_COLOR_MASK_PALETTE] <;> decide

theorem bgr_mem_transforms_of (h : IHDR) (valid : Nat)
    (hct : h.i_color_type ∈ [PNG_COLOR_TYPE_GRAY, PNG_COLOR_TYPE_GRAY_ALPHA,
      PNG_COLOR_TYPE_PALETTE, PNG_COLOR_TYPE_RGB, PNG_COLOR_TYPE_RGB_ALPHA]) :
    Transform.bgr ∈ transforms_of h valid ↔
      (h.i_color_type = PNG_COLOR_TYPE_RGB_ALPHA ∨
        ((h.i_color_type = PNG_COLOR_TYPE_RGB ∨ h.i_color_type = PNG_COLOR_TYPE_PALETTE) ∧
          valid ≠ 0)) := by
  unfold transforms_of
  simp only [List.mem_cons, List.mem_singleton, List.not_mem_nil, or_false] at hct
  by_cases hv : valid ≠ 0 <;>
    rcases hct with e | e | e | e | e <;> rw [e] <;>
      simp [hv, PNG_COLOR_TYPE_GRAY, PNG_COLOR_TYPE_GRAY_ALPHA, PNG_COLOR_TYPE_PALETTE,
        PNG_COLOR_TYPE_RGB, PNG_COLOR_TYPE_RGB_ALPHA, PNG_COLOR_MASK_ALPHA,
        PNG_COLOR_MASK_COLOR, PNG_COLOR_MASK_PALETTE] <;> decide

theorem mem_ite_singleton (c : Prop) [Decidable c] (x t : Transform) :
    x ∈ (if c then [t] else []) ↔ (c ∧ x = t) := by
  by_cases hc : c <;> simp [hc]

theorem bgr_mem_iff_color_RV32 (h : IHDR) (valid : Nat) :
    Transform.bgr ∈ transforms_of h valid ↔
      (h.i_color_type &&& PNG_COLOR_MASK_COLOR ≠ 0 ∧
        chroma_of h valid = VLC_FOURCC 'R' 'V' '3' '2') := by
  have hne := RV24_ne_RV32
  unfold transforms_of chroma_of
  simp only [List.mem_append, mem_ite_singleton, reduceCtorEq, and_false, false_or, and_true]
  by_cases hc : (valid ≠ 0 ∨ h.i_color_type &&& PNG_COLOR_MASK_ALPHA ≠ 0)
  · rw [if_pos hc]
    simp [hc]
  · rw [if_neg hc]
    simp [hc, hne]

/-! ## Claims about the decoder's format negotiation -/

/-- C1: for every header whose color type is GRAY, GRAY_ALPHA, PALETTE, RGB or
RGB_ALPHA (any bit depth, transparency chunk present or absent) and whose
height is not zero, `DecodeBlock` returns, and the output chroma it chooses is
RV32 if and only if the transparency chunk is present or the color type is
GRAY_ALPHA or RGB_ALPHA, and RV24 for every other header. -/
theorem DecodeBlock_chroma {σ ι : Type} (R : png_reader σ ι)
    (pf_vout_buffer_new : decoder_t → Option picture_t) (p_dec : decoder_t)
    (p_block : block_t) (h : IHDR) (valid : Nat)
    (hk : header_of R p_dec p_block = some (h, valid))
    (hz : to_u32 h.i_height ≠ 0)
    (hct : h.i_color_type ∈ [PNG_COLOR_TYPE_GRAY, PNG_COLOR_TYPE_GRAY_ALPHA,
      PNG_COLOR_TYPE_PALETTE, PNG_COLOR_TYPE_RGB, PNG_COLOR_TYPE_RGB_ALPHA]) :
    ∃ r, DecodeBlock R pf_vout_buffer_new p_dec (some (some p_block)) = some r ∧
      (r.p_dec.fmt_out.i_codec = VLC_FOURCC 'R' 'V' '3' '2' ↔
        (valid ≠ 0 ∨
          h.i_color_type = PNG_COLOR_TYPE_GRAY_ALPHA ∨
          h.i_color_type = PNG_COLOR_TYPE_RGB_ALPHA)) ∧
      (¬ (valid ≠ 0 ∨
          h.i_color_type = PNG_COLOR_TYPE_GRAY_ALPHA ∨
          h.i_color_type = PNG_COLOR_TYPE_RGB_ALPHA) →
        r.p_dec.fmt_out.i_codec = VLC_FOURCC 'R' 'V' '2' '4') := by
  obtain ⟨r, pre, mid, post, b1, b2, hr, _, _, _, hf⟩ :=
    DecodeBlock_of_header R pf_vout_buffer_new p_dec p_block h valid hk hz
  refine ⟨r, hr, ?_⟩
  rw [(format_spec_some h valid _ hf).1]
  exact chroma_of_table h valid hct

theorem DecodeBlock_chroma_witness :
    (DecodeBlock raw_reader alloc0 dec0 (some (some ga_1x1))).map
        (fun r => r.p_dec.fmt_out.i_codec) = some (VLC_FOURCC 'R' 'V' '3' '2') ∧
    (DecodeBlock raw_reader alloc0 dec0 (some (some rgb_2x2))).map
        (fun r => r.p_dec.fmt_out.i_codec) = some (VLC_FOURCC 'R' 'V' '2' '4') := by
  obtain ⟨r1, e1, h1, _⟩ := DecodeBlock_chroma raw_reader alloc0 dec0 ga_1x1
    ⟨1, 1, 8, 4, 0, 0, 0⟩ 0 (by decide) (by decide) (by decide)
  obtain ⟨r2, e2, _, h2⟩ := DecodeBlock_chroma raw_reader alloc0 dec0 rgb_2x2
    ⟨2, 2, 8, 2, 0, 0, 0⟩ 0 (by decide) (by decide) (by decide)
  rw [e1, e2]
  exact ⟨congrArg some (h1.2 (Or.inr (Or.inl (by decide)))), congrArg some (h2 (by decide))⟩

/-- C2, as the code has it: for every header with a non-zero height,
`DecodeBlock` returns, and it requests the channel swap exactly when the color
type has the color bit and the output chroma is RV32, that is for RGB_ALPHA and
for RGB or PALETTE with a transparency chunk; an RGB or PALETTE image with no
alpha channel and no transparency chunk is decoded to RV24 with no swap
requested, and GRAY and GRAY_ALPHA images never get the swap. -/
theorem DecodeBlock_swap {σ ι : Type} (R : png_reader σ ι)
    (pf_vout_buffer_new : decoder_t → Option picture_t) (p_dec : decoder_t)
    (p_block : block_t) (h : IHDR) (valid : Nat)
    (hk : header_of R p_dec p_block = some (h, valid))
    (hz : to_u32 h.i_height ≠ 0)
    (hct : h.i_color_type ∈ [PNG_COLOR_TYPE_GRAY, PNG_COLOR_TYPE_GRAY_ALPHA,
      PNG_COLOR_TYPE_PALETTE, PNG_COLOR_TYPE_RGB, PNG_COLOR_TYPE_RGB_ALPHA]) :
    ∃ r, DecodeBlock R pf_vout_buffer_new p_dec (some (some p_block)) = some r ∧
      (Event.png_set Transform.bgr ∈ r.log ↔
        (h.i_color_type &&& PNG_COLOR_MASK_COLOR ≠ 0 ∧
          r.p_dec.fmt_out.i_codec = VLC_FOURCC 'R' 'V' '3' '2')) ∧
      (Event.png_set Transform.bgr ∈ r.log ↔
        (h.i_color_type = PNG_COLOR_TYPE_RGB_ALPHA ∨
          ((h.i_color_type = PNG_COLOR_TYPE_RGB ∨ h.i_color_type = PNG_COLOR_TYPE_PALETTE) ∧
            valid ≠ 0))) ∧
      ((h.i_color_type = PNG_COLOR_TYPE_RGB ∨ h.i_color_type = PNG_COLOR_TYPE_PALETTE) →
        valid = 0 →
        r.p_dec.fmt_out.i_codec = VLC_FOURCC 'R' 'V' '2' '4' ∧
          Event.png_set Transform.bgr ∉ r.log) ∧
      ((h.i_color_type = PNG_COLOR_TYPE_GRAY ∨ h.i_color_type = PNG_COLOR_TYPE_GRAY_ALPHA) →
        Event.png_set Transform.bgr ∉ r.log) := by
  obtain ⟨r, pre, mid, post, b1, b2, hr, hs, _, hreq, hf⟩ :=
    DecodeBlock_of_header R pf_vout_buffer_new p_dec p_block h valid hk hz
  have hmem : Event.png_set Transform.bgr ∈ r.log ↔ Transform.bgr ∈ transforms_of h valid := by
    rw [← mem_requested, requested_of_shape hs, hreq]
  have htab := bgr_mem_transforms_of h valid hct
  have hch := chroma_of_table h valid hct
  refine ⟨r, hr, ?_, ?_, ?_, ?_⟩
  · rw [hmem, (format_spec_some h valid _ hf).1]
    exact bgr_mem_iff_color_RV32 h valid
  · rw [hmem]
    exact htab
  · intro hc hv
    rw [hmem, htab, (format_spec_some h valid _ hf).1]
    constructor
    · apply hch.2
      rintro (h1 | h1 | h1)
      · exact h1 hv
      · rcases hc with e | e <;> rw [e] at h1 <;> revert h1 <;> decide
      · rcases hc with e | e <;> rw [e] at h1 <;> revert h1 <;> decide
    · rintro (h1 | ⟨_, h1⟩)
      · rcases hc with e | e <;> rw [e] at h1 <;> revert h1 <;> decide
      · exact h1 hv
  · intro hc
    rw [hmem, htab]
    rintro (h1 | ⟨h1, _⟩)
    · rcases hc with e | e <;> rw [e] at h1 <;> revert h1 <;> decide
    · rcases hc with e | e <;> rcases h1 with h1 | h1 <;> rw [e] at h1 <;> revert h1 <;> decide

theorem DecodeBlock_swap_witness :
    (DecodeBlock raw_reader alloc0 dec0 (some (some rgba_1x1))).map
        (fun r => decide (Event.png_set Transform.bgr ∈ r.log)) = some true := by
  obtain ⟨r, e, _, h2, _⟩ := DecodeBlock_swap raw_reader alloc0 dec0 rgba_1x1
    ⟨1, 1, 8, 6, 0, 0, 0⟩ 0 (by decide) (by decide) (by decide)
  rw [e]
  exact congrArg some (decide_eq_true (h2.2 (Or.inl (by decide))))

/-- C2 as stated fails: the 2x2 frame has an RGB, 8-bit header without alpha and
without transparency chunk, for which the claim asks for the swap, and the call
returns with no swap requested; the 1x1 frame has an RGB_ALPHA header, for which
the claim asks for no swap, and the call returns with the swap requested. -/
theorem DecodeBlock_swap_counterexample :
    header_of raw_reader dec0 rgb_2x2 = some (⟨2, 2, 8, PNG_COLOR_TYPE_RGB, 0, 0, 0⟩, 0) ∧
    (DecodeBlock raw_reader alloc0 dec0 (some (some rgb_2x2))).map
        (fun r => decide (Event.png_set Transform.bgr ∈ r.log)) = some false ∧
    header_of raw_reader dec0 rgba_1x1 =
      some (⟨1, 1, 8, PNG_COLOR_TYPE_RGB_ALPHA, 0, 0, 0⟩, 0) ∧
    (DecodeBlock raw_reader alloc0 dec0 (some (some rgba_1x1))).map
        (fun r => decide (Event.png_set Transform.bgr ∈ r.log)) = some true := by
  decide

/-- C8: for every header with `1 <= W, H <= 2^31 - 1`, `DecodeBlock` returns and
the output properties it sets are width `W`, height `H` and aspect
`(VOUT_ASPECT_FACTOR * W mod 2^32) / H`, the product and the truncating quotient
being taken in unsigned 32-bit arithmetic; the divisor is not zero, and the
aspect is `VOUT_ASPECT_FACTOR * W / H` whenever the product fits 32 bits. -/
theorem DecodeBlock_dimensions {σ ι : Type} (R : png_reader σ ι)
    (pf_vout_buffer_new : decoder_t → Option picture_t) (p_dec : decoder_t)
    (p_block : block_t) (h : IHDR) (valid : Nat)
    (hk : header_of R p_dec p_block = some (h, valid))
    (hw1 : 1 ≤ h.i_width) (hw2 : h.i_width ≤ 2147483647)
    (hh1 : 1 ≤ h.i_height) (hh2 : h.i_height ≤ 2147483647) :
    ∃ r, DecodeBlock R pf_vout_buffer_new p_dec (some (some p_block)) = some r ∧
      r.p_dec.fmt_out.video.i_width = h.i_width ∧
      r.p_dec.fmt_out.video.i_height = h.i_height ∧
      r.p_dec.fmt_out.video.i_aspect =
        (VOUT_ASPECT_FACTOR * h.i_width % 4294967296) / h.i_height ∧
      to_u32 h.i_height ≠ 0 ∧
      (VOUT_ASPECT_FACTOR * h.i_width < 4294967296 →
        r.p_dec.fmt_out.video.i_aspect = VOUT_ASPECT_FACTOR * h.i_width / h.i_height) := by
  have e1 : to_u32 h.i_width = h.i_width := by unfold to_u32; omega
  have e2 : to_u32 h.i_height = h.i_height := by unfold to_u32; omega
  have hz : to_u32 h.i_height ≠ 0 := by rw [e2]; omega
  obtain ⟨r, pre, mid, post, b1, b2, hr, _, _, _, hf⟩ :=
    DecodeBlock_of_header R pf_vout_buffer_new p_dec p_block h valid hk hz
  obtain ⟨_, f1, f2, f3⟩ := format_spec_some h valid _ hf
  have e3 : to_u32 (to_u32 (VOUT_ASPECT_FACTOR * h.i_width) / h.i_height) =
      (VOUT_ASPECT_FACTOR * h.i_width % 4294967296) / h.i_height := by
    unfold to_u32
    apply Nat.mod_eq_of_lt
    have : VOUT_ASPECT_FACTOR * h.i_width % 4294967296 < 4294967296 := Nat.mod_lt _ (by decide)
    exact lt_of_le_of_lt (Nat.div_le_self _ _) this
  rw [e1, e2, e3] at f3
  rw [e1] at f1
  rw [e2] at f2
  refine ⟨r, hr, f1, f2, f3, hz, ?_⟩
  intro hlt
  rw [f3, Nat.mod_eq_of_lt hlt]

theorem DecodeBlock_dimensions_witness :
    (DecodeBlock raw_reader alloc0 dec0 (some (some rgb_2x2))).map
        (fun r => r.p_dec.fmt_out.video) = some ⟨2, 2, 432000⟩ := by
  obtain ⟨r, e, h1, h2, h3, _⟩ := DecodeBlock_dimensions raw_reader alloc0 dec0 rgb_2x2
    ⟨2, 2, 8, 2, 0, 0, 0⟩ 0 (by decide) (by decide) (by decide) (by decide) (by decide)
  rw [e]
  have ev : r.p_dec.fmt_out.video =
      ⟨r.p_dec.fmt_out.video.i_width, r.p_dec.fmt_out.video.i_height,
        r.p_dec.fmt_out.video.i_aspect⟩ := rfl
  show some r.p_dec.fmt_out.video = _
  rw [ev, h1, h2, h3]
  rfl

/-- C10: for every valid header with a non-zero height, `DecodeBlock` returns,
and its transform requests are, in this order, palette expansion (iff PALETTE),
gray expansion (iff GRAY or GRAY_ALPHA), 16-to-8 strip (iff bit depth 16) and
transparency-to-alpha (iff the transparency chunk is present), the channel swap
aside; all of them are made before the picture is requested from the
allocator; and the channels per pixel the engine produces after them are 3
when the chroma is RV24 and 4 when it is RV32. For GRAY_ALPHA with bit depth 8
the chroma is RV32 and the only request is the gray expansion. -/
theorem DecodeBlock_transforms {σ ι : Type} (R : png_reader σ ι)
    (pf_vout_buffer_new : decoder_t → Option picture_t) (p_dec : decoder_t)
    (p_block : block_t) (h : IHDR) (valid : Nat)
    (hk : header_of R p_dec p_block = some (h, valid))
    (hz : to_u32 h.i_height ≠ 0)
    (hv : valid_header h valid) :
    ∃ r, DecodeBlock R pf_vout_buffer_new p_dec (some (some p_block)) = some r ∧
      (requested r.log).filter (fun t => decide (t ≠ Transform.bgr)) =
        (if h.i_color_type = PNG_COLOR_TYPE_PALETTE then [Transform.palette_to_rgb] else []) ++
        (if h.i_color_type = PNG_COLOR_TYPE_GRAY ∨ h.i_color_type = PNG_COLOR_TYPE_GRAY_ALPHA
          then [Transform.gray_to_rgb] else []) ++
        (if h.i_bit_depth = 16 then [Transform.strip_16] else []) ++
        (if valid ≠ 0 then [Transform.tRNS_to_alpha] else []) ∧
      (∃ before after b,
        r.log = before ++ Event.vout_buffer_new b :: after ∧
        requested before = requested r.log ∧
        requested after = [] ∧
        ∀ b', Event.vout_buffer_new b' ∉ before) ∧
      ((r.p_dec.fmt_out.i_codec = VLC_FOURCC 'R' 'V' '2' '4' ∧
        channels_after h.i_color_type (requested r.log) = 3) ∨
       (r.p_dec.fmt_out.i_codec = VLC_FOURCC 'R' 'V' '3' '2' ∧
        channels_after h.i_color_type (requested r.log) = 4)) ∧
      (h.i_color_type = PNG_COLOR_TYPE_GRAY_ALPHA → h.i_bit_depth = 8 →
        r.p_dec.fmt_out.i_codec = VLC_FOURCC 'R' 'V' '3' '2' ∧
        requested r.log = [Transform.gray_to_rgb]) := by
  obtain ⟨r, pre, mid, post, b1, b2, hr0, hs, hmid, hr, hf0⟩ :=
    DecodeBlock_of_header R pf_vout_buffer_new p_dec p_block h valid hk hz
  have hf := (format_spec_some h valid _ hf0).1
  refine ⟨r, hr0, ?_⟩
  have hreq := requested_of_shape hs
  rw [hreq, hr, hf]
  obtain ⟨hd, ht⟩ := hv
  refine ⟨?_, ?_, ?_, ?_⟩
  · unfold transforms_of
    split_ifs <;> rfl
  · have hm : ∃ b, mid = [Event.vout_buffer_new b] := by
      rcases hs.mid_cases with m | m | m
      · exact absurd m.1 hmid
      · exact ⟨false, m.1⟩
      · exact ⟨true, m⟩
    obtain ⟨b, hm⟩ := hm
    refine ⟨Event.b_error_set false :: pre,
      post ++ [Event.png_destroy_read_struct, Event.block_Release], b, ?_, ?_, ?_, ?_⟩
    · rw [hs.log, hm]; simp
    · rw [← hr]; rfl
    · rw [requested_append, hs.post_requested]; rfl
    · intro b' hb'
      rcases List.mem_cons.1 hb' with e | e
      · cases e
      · have := hs.pre_trace.engine _ e
        simp [Event.is_engine] at this
  · have hne := RV24_ne_RV32
    have hct : h.i_color_type = PNG_COLOR_TYPE_GRAY ∨
        h.i_color_type = PNG_COLOR_TYPE_GRAY_ALPHA ∨ h.i_color_type = PNG_COLOR_TYPE_PALETTE ∨
        h.i_color_type = PNG_COLOR_TYPE_RGB ∨ h.i_color_type = PNG_COLOR_TYPE_RGB_ALPHA := by
      rcases hd with ⟨e, _⟩ | ⟨e, _⟩ | ⟨e | e | e, _⟩ <;> simp [e]
    unfold transforms_of chroma_of channels_after
    by_cases h3 : h.i_bit_depth = 16 <;> by_cases h4 : valid ≠ 0
    · rcases ht h4 with e | e | e <;> rw [e] <;>
        simp [h3, h4, hne, channels_step, raw_channels, PNG_COLOR_TYPE_GRAY,
          PNG_COLOR_TYPE_GRAY_ALPHA, PNG_COLOR_TYPE_PALETTE, PNG_COLOR_TYPE_RGB,
          PNG_COLOR_TYPE_RGB_ALPHA, PNG_COLOR_MASK_ALPHA, PNG_COLOR_MASK_COLOR,
          PNG_COLOR_MASK_PALETTE]
    · rcases hct with e | e | e | e | e <;> rw [e] <;>
        simp [h3, h4, hne, channels_step, raw_channels, PNG_COLOR_TYPE_GRAY,
          PNG_COLOR_TYPE_GRAY_ALPHA, PNG_COLOR_TYPE_PALETTE, PNG_COLOR_TYPE_RGB,
          PNG_COLOR_TYPE_RGB_ALPHA, PNG_COLOR_MASK_ALPHA, PNG_COLOR_MASK_COLOR,
          PNG_COLOR_MASK_PALETTE] <;> decide
    · rcases ht h4 with e | e | e <;> rw [e] <;>
        simp [h3, h4, hne, channels_step, raw_channels, PNG_COLOR_TYPE_GRAY,
          PNG_COLOR_TYPE_GRAY_ALPHA, PNG_COLOR_TYPE_PALETTE, PNG_COLOR_TYPE_RGB,
          PNG_COLOR_TYPE_RGB_ALPHA, PNG_COLOR_MASK_ALPHA, PNG_COLOR_MASK_COLOR,
          PNG_COLOR_MASK_PALETTE]
    · rcases hct with e | e | e | e | e <;> rw [e] <;>
        simp [h3, h4, hne, channels_step, raw_channels, PNG_COLOR_TYPE_GRAY,
          PNG_COLOR_TYPE_GRAY_ALPHA, PNG_COLOR_TYPE_PALETTE, PNG_COLOR_TYPE_RGB,
          PNG_COLOR_TYPE_RGB_ALPHA, PNG_COLOR_MASK_ALPHA, PNG_COLOR_MASK_COLOR,
          PNG_COLOR_MASK_PALETTE] <;> decide
  · intro e d
    have h4 : ¬ valid ≠ 0 := by
      intro hv
      rcases ht hv with e' | e' | e' <;> rw [e] at e' <;> revert e' <;> decide
    unfold transforms_of chroma_of
    rw [e]
    simp [h4, d, PNG_COLOR_TYPE_GRAY, PNG_COLOR_TYPE_GRAY_ALPHA, PNG_COLOR_TYPE_PALETTE,
      PNG_COLOR_MASK_ALPHA, PNG_COLOR_MASK_COLOR, PNG_COLOR_MASK_PALETTE]
    decide

theorem DecodeBlock_transforms_witness :
    (DecodeBlock raw_reader alloc0 dec0 (some (some ga_1x1))).map
        (fun r => (r.p_dec.fmt_out.i_codec, requested r.log)) =
      some (VLC_FOURCC 'R' 'V' '3' '2', [Transform.gray_to_rgb]) := by
  obtain ⟨r, e, _, _, _, h4⟩ := DecodeBlock_transforms raw_reader alloc0 dec0 ga_1x1
    ⟨1, 1, 8, 4, 0, 0, 0⟩ 0 (by decide) (by decide) (by unfold valid_header; decide)
  obtain ⟨h5, h6⟩ := h4 (by decide) (by decide)
  rw [e]
  show some (r.p_dec.fmt_out.i_codec, requested r.log) = _
  rw [h5, h6]

/-! ## Engine calls see the frame and the flag only -/

theorem same_core_refl (c : read_ctx) : same_core c c := ⟨rfl, rfl⟩

theorem same_core_symm {c c' : read_ctx} (h : same_core c c') : same_core c' c :=
  ⟨h.1.symm, h.2.symm⟩

theorem same_core_trans {c1 c2 c3 : read_ctx} (h1 : same_core c1 c2) (h2 : same_core c2 c3) :
    same_core c1 c3 := ⟨h1.1.trans h2.1, h1.2.trans h2.2⟩

theorem user_read_core (c c' : read_ctx) (n : Nat) (h : same_core c c') :
    (user_read c n).1 = (user_read c' n).1 ∧ same_core (user_read c n).2 (user_read c' n).2 := by
  obtain ⟨hb, hf⟩ := h
  unfold user_read
  dsimp only
  rw [hb]
  by_cases hs : (n != to_size (MIN c'.p_block.i_buffer (to_int n))) = true
  · rw [if_pos hs, if_pos hs]
    exact ⟨rfl, rfl, rfl⟩
  · rw [if_neg hs, if_neg hs]
    exact ⟨rfl, rfl, hf⟩

theorem png_error_core (c c' : read_ctx) (h : same_core c c') :
    same_core (png_error c) (png_error c') := ⟨h.1, rfl⟩

theorem user_warning_core (c c' : read_ctx) (h : same_core c c') :
    same_core (user_warning c) (user_warning c') := ⟨h.1, h.2⟩

/-- An engine call returns the same value and leaves the same frame and flag on
contexts with the same frame and flag. -/
theorem run_core {α : Type} (p : ReadProg α) :
    ∀ c c' : read_ctx, same_core c c' →
      (p.run c).1 = (p.run c').1 ∧ same_core (p.run c).2 (p.run c').2 := by
  induction p with
  | ret a => intro c c' h; exact ⟨rfl, h⟩
  | read_data n k ih =>
    intro c c' h
    obtain ⟨hd, hc⟩ := user_read_core c c' n h
    simp only [ReadProg.run]
    rw [hd]
    exact ih _ _ _ hc
  | error k ih =>
    intro c c' h
    simp only [ReadProg.run]
    exact ih _ _ (png_error_core c c' h)
  | warning k ih =>
    intro c c' h
    simp only [ReadProg.run]
    exact ih _ _ (user_warning_core c c' h)

/-- The flag is sticky: an engine call never lowers it. -/
theorem run_flag_mono {α : Type} (p : ReadProg α) (c : read_ctx)
    (h : c.p_dec.p_sys.b_error = true) : (p.run c).2.p_dec.p_sys.b_error = true := by
  obtain ⟨⟨_, _, ht, _⟩, _⟩ := engine_step_run p c
  rw [ht.flag, h]
  rfl

theorem clean_call_core {α : Type} (p : ReadProg α) (c c' : read_ctx) (h : same_core c c') :
    (clean_call p c = none ↔ (p.run c').2.p_dec.p_sys.b_error = true) ∧
    (∀ x, clean_call p c = some x → (p.run c').2.p_dec.p_sys.b_error = false ∧
      x.1 = (p.run c').1 ∧ same_core x.2 (p.run c').2) := by
  obtain ⟨hv, hc⟩ := run_core p c c' h
  unfold clean_call
  by_cases hb : (p.run c).2.p_dec.p_sys.b_error = true
  · rw [if_pos hb]
    refine ⟨⟨fun _ => (by rw [← hc.2]; exact hb), fun _ => rfl⟩, ?_⟩
    intro x hx; cases hx
  · rw [if_neg hb]
    simp only [Bool.not_eq_true] at hb
    refine ⟨⟨fun hx => (by cases hx), fun hx => ?_⟩, ?_⟩
    · rw [← hc.2, hb] at hx; cases hx
    · intro x hx
      injection hx with hx
      subst hx
      exact ⟨(by rw [← hc.2]; exact hb), hv, hc⟩

/-! ## The transform requests of the code and of the decision table -/

theorem png_set_all_append {σ ι : Type} (R : png_reader σ ι) (l1 l2 : List Transform)
    (s : σ × read_ctx) : png_set_all R (l1 ++ l2) s = png_set_all R l2 (png_set_all R l1 s) := by
  simp [png_set_all, List.foldl_append]

theorem png_set_all_ite {σ ι : Type} (R : png_reader σ ι) (c : Prop) [Decidable c]
    (t : Transform) (s : σ × read_ctx) :
    png_set_all R (if c then [t] else []) s = if c then png_set R t s else s := by
  by_cases hc : c <;> simp [hc, png_set_all]

theorem png_set_core {σ ι : Type} (R : png_reader σ ι) (x : Transform) (s t : σ × read_ctx)
    (h1 : s.1 = t.1) (h2 : same_core s.2 t.2) :
    (png_set R x s).1 = ((R.png_set x t.1).run t.2).1 ∧
    same_core (png_set R x s).2 ((R.png_set x t.1).run t.2).2 := by
  unfold png_set
  rw [h1]
  exact run_core _ _ _ ⟨h2.1, h2.2⟩

theorem png_set_flag_mono {σ ι : Type} (R : png_reader σ ι) (x : Transform) (s : σ × read_ctx)
    (h : s.2.p_dec.p_sys.b_error = true) : (png_set R x s).2.p_dec.p_sys.b_error = true := by
  unfold png_set
  exact run_flag_mono _ _ h

theorem png_set_all_flag_mono {σ ι : Type} (R : png_reader σ ι) (ts : List Transform) :
    ∀ s : σ × read_ctx, s.2.p_dec.p_sys.b_error = true →
      (png_set_all R ts s).2.p_dec.p_sys.b_error = true := by
  induction ts with
  | nil => intro s h; exact h
  | cons x xs ih =>
    intro s h
    exact ih (png_set R x s) (png_set_flag_mono R x s h)

/-- Requests made without a look at the flag and requests made with a look after
each agree: when the flag is down at the end the states agree, and when it is
up the checked sequence has stopped. -/
theorem clean_requests_of_all {σ ι : Type} (R : png_reader σ ι) (ts : List Transform) :
    ∀ s t : σ × read_ctx, s.1 = t.1 → same_core s.2 t.2 →
      ((png_set_all R ts s).2.p_dec.p_sys.b_error = true → ts ≠ [] →
        clean_requests R ts t = none) ∧
      ((png_set_all R ts s).2.p_dec.p_sys.b_error = false →
        ∃ t', clean_requests R ts t = some t' ∧ (png_set_all R ts s).1 = t'.1 ∧
          same_core (png_set_all R ts s).2 t'.2) := by
  induction ts with
  | nil =>
    intro s t h1 h2
    exact ⟨fun _ hne => absurd rfl hne, fun _ => ⟨t, rfl, h1, h2⟩⟩
  | cons x xs ih =>
    intro s t h1 h2
    obtain ⟨hv, hc⟩ := png_set_core R x s t h1 h2
    have hstep : png_set_all R (x :: xs) s = png_set_all R xs (png_set R x s) := rfl
    rw [hstep]
    by_cases hb : ((R.png_set x t.1).run t.2).2.p_dec.p_sys.b_error = true
    · have hcl : clean_requests R (x :: xs) t = none := by
        simp only [clean_requests, clean_call, hb, if_true]
      have hup : (png_set_all R xs (png_set R x s)).2.p_dec.p_sys.b_error = true :=
        png_set_all_flag_mono R xs _ (by rw [hc.2]; exact hb)
      refine ⟨fun _ _ => hcl, fun hf => ?_⟩
      rw [hup] at hf
      cases hf
    · simp only [Bool.not_eq_true] at hb
      have hcl : clean_requests R (x :: xs) t =
          clean_requests R xs ((R.png_set x t.1).run t.2) := by
        simp only [clean_requests, clean_call, hb]
        rfl
      rw [hcl]
      obtain ⟨i1, i2⟩ := ih (png_set R x s) ((R.png_set x t.1).run t.2) hv hc
      refine ⟨fun hf _ => ?_, i2⟩
      by_cases hxs : xs = []
      · subst hxs
        have : (png_set R x s).2.p_dec.p_sys.b_error = true := hf
        rw [hc.2, hb] at this
        cases this
      · exact i1 hf hxs

/-- The requests of lines 171-194 are those of the decision table, made in order:
the two runs end with the same engine state, frame and flag. -/
theorem DecodeBlock_requests_core {σ ι : Type} (R : png_reader σ ι) (h : IHDR) (valid : Nat)
    (s0 : σ × read_ctx) (hc0 : s0.2.p_dec.fmt_out.i_codec = VLC_FOURCC 'R' 'V' '3' '2') :
    (DecodeBlock_requests R h valid s0).1 = (png_set_all R (transforms_of h valid) s0).1 ∧
    same_core (DecodeBlock_requests R h valid s0).2
      (png_set_all R (transforms_of h valid) s0).2 := by
  have hne := RV24_ne_RV32
  let s1 := if h.i_color_type = PNG_COLOR_TYPE_PALETTE then png_set R .palette_to_rgb s0 else s0
  have e1 := engine_step_cond R .palette_to_rgb s0 (h.i_color_type = PNG_COLOR_TYPE_PALETTE)
  let s2 := if h.i_color_type = PNG_COLOR_TYPE_GRAY ∨ h.i_color_type = PNG_COLOR_TYPE_GRAY_ALPHA
    then png_set R .gray_to_rgb s1 else s1
  have e2 := engine_step_cond R .gray_to_rgb s1
    (h.i_color_type = PNG_COLOR_TYPE_GRAY ∨ h.i_color_type = PNG_COLOR_TYPE_GRAY_ALPHA)
  let s3 := if h.i_bit_depth = 16 then png_set R .strip_16 s2 else s2
  have e3 := engine_step_cond R .strip_16 s2 (h.i_bit_depth = 16)
  have e123 := engine_step_trans (engine_step_trans e1 e2) e3
  have f3 : s3.2.p_dec.fmt_out.i_codec = VLC_FOURCC 'R' 'V' '3' '2' := by
    have := e123.fmt
    rw [this]; exact hc0
  have key : DecodeBlock_requests R h valid s0 =
      (let s4 := if valid ≠ 0 then png_set R .tRNS_to_alpha s3
        else if h.i_color_type &&& PNG_COLOR_MASK_ALPHA = 0 then
          (s3.1, { s3.2 with p_dec := { s3.2.p_dec with fmt_out :=
            { s3.2.p_dec.fmt_out with i_codec := VLC_FOURCC 'R' 'V' '2' '4' } } })
        else s3
       if h.i_color_type &&& PNG_COLOR_MASK_COLOR ≠ 0 ∧
          s4.2.p_dec.fmt_out.i_codec ≠ VLC_FOURCC 'R' 'V' '2' '4' then
        png_set R .bgr s4
       else s4) := rfl
  have all : png_set_all R (transforms_of h valid) s0 =
      (let s4 := if valid ≠ 0 then png_set R .tRNS_to_alpha s3 else s3
       if h.i_color_type &&& PNG_COLOR_MASK_COLOR ≠ 0 ∧
          (valid ≠ 0 ∨ h.i_color_type &&& PNG_COLOR_MASK_ALPHA ≠ 0) then
        png_set R .bgr s4
       else s4) := by
    unfold transforms_of
    simp only [png_set_all_append, png_set_all_ite]
  rw [key, all]
  clear key all
  dsimp only
  by_cases hv : valid ≠ 0
  · rw [if_pos hv, if_pos hv]
    have e4 := engine_step_png_set R .tRNS_to_alpha s3
    have f4 : (png_set R .tRNS_to_alpha s3).2.p_dec.fmt_out.i_codec =
        VLC_FOURCC 'R' 'V' '3' '2' := by rw [e4.fmt, f3]
    by_cases hcol : h.i_color_type &&& PNG_COLOR_MASK_COLOR ≠ 0
    · rw [if_pos ⟨hcol, by rw [f4]; exact hne.symm⟩, if_pos ⟨hcol, Or.inl hv⟩]
      exact ⟨rfl, same_core_refl _⟩
    · rw [if_neg (fun x => hcol x.1), if_neg (fun x => hcol x.1)]
      exact ⟨rfl, same_core_refl _⟩
  · rw [if_neg hv, if_neg hv]
    by_cases ha : h.i_color_type &&& PNG_COLOR_MASK_ALPHA = 0
    · rw [if_pos ha, if_neg (fun x => x.2 rfl), if_neg (fun x => x.2.elim hv (fun y => y ha))]
      exact ⟨rfl, rfl, rfl⟩
    · rw [if_neg ha]
      by_cases hcol : h.i_color_type &&& PNG_COLOR_MASK_COLOR ≠ 0
      · rw [if_pos ⟨hcol, by rw [f3]; exact hne.symm⟩, if_pos ⟨hcol, Or.inr ha⟩]
        exact ⟨rfl, same_core_refl _⟩
      · rw [if_neg (fun x => hcol x.1), if_neg (fun x => hcol x.1)]
        exact ⟨rfl, same_core_refl _⟩

/-! ## The code against the decode of the specification -/

/-- The picture stage returns what the specification's last steps give, and
nothing when the flag is already up. -/
theorem DecodeBlock_picture_core {σ ι : Type} (R : png_reader σ ι)
    (pf_vout_buffer_new : decoder_t → Option picture_t) (h : IHDR) (p_png : σ)
    (p_end_info : ι) (c t : read_ctx) (hcore : same_core c t) :
    (DecodeBlock_picture R pf_vout_buffer_new h p_png p_end_info c).p_pic =
      if c.p_dec.p_sys.b_error = true then none
      else picture_spec R pf_vout_buffer_new c.p_dec h p_png p_end_info t := by
  unfold DecodeBlock_picture picture_spec
  cases hp : pf_vout_buffer_new c.p_dec with
  | none =>
    dsimp only
    split <;> rfl
  | some p0 =>
    dsimp only
    have hc' : same_core t { c with log := c.log ++ [Event.vout_buffer_new true] } :=
      ⟨hcore.1.symm, hcore.2.symm⟩
    obtain ⟨a1, a2⟩ := clean_call_core
      (R.png_read_image p_png (row_pointers p0.p.i_pitch h.i_height)) t _ hc'
    by_cases hb : c.p_dec.p_sys.b_error = true
    · rw [if_pos hb]
      have hup := run_flag_mono (R.png_read_image p_png (row_pointers p0.p.i_pitch h.i_height))
        { c with log := c.log ++ [Event.vout_buffer_new true] } hb
      rw [if_pos hup]
      rfl
    · rw [if_neg hb]
      by_cases hr : ((R.png_read_image p_png (row_pointers p0.p.i_pitch h.i_height)).run
          { c with log := c.log ++ [Event.vout_buffer_new true] }).2.p_dec.p_sys.b_error = true
      · rw [if_pos hr, a1.2 hr]
        rfl
      · rw [if_neg hr]
        cases hx : clean_call (R.png_read_image p_png (row_pointers p0.p.i_pitch h.i_height)) t with
        | none => exact absurd (a1.1 hx) hr
        | some x =>
          obtain ⟨_, x1, x2⟩ := a2 x hx
          dsimp only
          obtain ⟨b1, b2⟩ := clean_call_core (R.png_read_end x.1.1 p_end_info) x.2 _ x2
          rw [x1] at b1 b2
          by_cases he : ((R.png_read_end
              ((R.png_read_image p_png (row_pointers p0.p.i_pitch h.i_height)).run
                { c with log := c.log ++ [Event.vout_buffer_new true] }).1.1 p_end_info).run
              ((R.png_read_image p_png (row_pointers p0.p.i_pitch h.i_height)).run
                { c with log := c.log ++ [Event.vout_buffer_new true] }).2).2.p_dec.p_sys.b_error
              = true
          · rw [if_pos he, x1, b1.2 he]
            rfl
          · rw [if_neg he]
            cases hy : clean_call (R.png_read_end x.1.1 p_end_info) x.2 with
            | none =>
              rw [x1] at hy
              exact absurd (b1.1 hy) he
            | some y =>
              dsimp only
              rw [x1]

/-- The header stage against the first two calls of the specification's decode. -/
theorem DecodeBlock_header_core {σ ι : Type} (R : png_reader σ ι) (p_dec : decoder_t)
    (p_block : block_t) (c0 : read_ctx)
    (h0 : same_core c0 (DecodeBlock_entry p_dec p_block)) :
    (∀ c, DecodeBlock_header R p_dec p_block = .error c →
      clean_call (R.png_read_info R.png_create_read_struct
          (R.png_create_info_struct R.png_create_read_struct)) c0 = none ∨
      ∃ s c1, clean_call (R.png_read_info R.png_create_read_struct
          (R.png_create_info_struct R.png_create_read_struct)) c0 = some (s, c1) ∧
        clean_call (R.png_get_IHDR s.1 s.2) c1 = none) ∧
    (∀ h p_png p_info p_end_info c,
      DecodeBlock_header R p_dec p_block = .ok (h, p_png, p_info, p_end_info, c) →
      p_end_info = R.png_create_info_struct R.png_create_read_struct ∧
      c.p_dec.p_sys.b_error = false ∧
      ∃ c1 c2, clean_call (R.png_read_info R.png_create_read_struct
          (R.png_create_info_struct R.png_create_read_struct)) c0 = some ((p_png, p_info), c1) ∧
        clean_call (R.png_get_IHDR p_png p_info) c1 = some (h, c2) ∧ same_core c c2) := by
  obtain ⟨a1, a2⟩ := clean_call_core (R.png_read_info R.png_create_read_struct
    (R.png_create_info_struct R.png_create_read_struct)) c0 _ h0
  constructor
  · intro c hk
    unfold DecodeBlock_header at hk
    dsimp only at hk
    split at hk
    · rename_i hb
      exact Or.inl (a1.2 hb)
    · rename_i hb
      split at hk
      · rename_i hg
        cases hx : clean_call (R.png_read_info R.png_create_read_struct
            (R.png_create_info_struct R.png_create_read_struct)) c0 with
        | none => exact Or.inl rfl
        | some x =>
          obtain ⟨_, x1, x2⟩ := a2 x hx
          obtain ⟨b1, _⟩ := clean_call_core (R.png_get_IHDR x.1.1 x.1.2) x.2 _ x2
          rw [x1] at b1
          exact Or.inr ⟨x.1, x.2, rfl, by rw [x1]; exact b1.2 hg⟩
      · cases hk
  · intro h p_png p_info p_end_info c hk
    unfold DecodeBlock_header at hk
    dsimp only at hk
    split at hk
    · cases hk
    · rename_i hb
      split at hk
      · cases hk
      · rename_i hg
        injection hk with hk
        injection hk with k1 hk
        injection hk with k2 hk
        injection hk with k3 hk
        injection hk with k4 k5
        subst k1 k2 k3 k4 k5
        refine ⟨rfl, by simpa using hg, ?_⟩
        cases hx : clean_call (R.png_read_info R.png_create_read_struct
            (R.png_create_info_struct R.png_create_read_struct)) c0 with
        | none => exact absurd (a1.1 hx) hb
        | some x =>
          obtain ⟨_, x1, x2⟩ := a2 x hx
          obtain ⟨b1, b2⟩ := clean_call_core (R.png_get_IHDR x.1.1 x.1.2) x.2 _ x2
          rw [x1] at b1 b2
          cases hy : clean_call (R.png_get_IHDR x.1.1 x.1.2) x.2 with
          | none =>
            rw [x1] at hy
            exact absurd (b1.1 hy) hg
          | some y =>
            rw [x1] at hy
            obtain ⟨_, y1, y2⟩ := b2 y hy
            refine ⟨x.2, y.2, ?_, ?_, same_core_symm y2⟩
            · rw [← x1]
            · rw [hy, ← y1]

/-- A call that returns gives the picture of the specification's decode. -/
theorem DecodeBlock_refines {σ ι : Type} (R : png_reader σ ι)
    (pf_vout_buffer_new : decoder_t → Option picture_t) (p_dec : decoder_t)
    (p_block : block_t)
    (hh : ∀ h valid, header_of R p_dec p_block = some (h, valid) → to_u32 h.i_height ≠ 0) :
    ∃ r, DecodeBlock R pf_vout_buffer_new p_dec (some (some p_block)) = some r ∧
      r.p_pic = decode_spec R pf_vout_buffer_new p_dec p_block := by
  have h0 : same_core
      (read_ctx.mk p_block { p_dec with p_sys := { b_error := false } } [])
      (DecodeBlock_entry p_dec p_block) := ⟨rfl, rfl⟩
  obtain ⟨e1, e2⟩ := DecodeBlock_header_core R p_dec p_block _ h0
  cases hk : DecodeBlock_header R p_dec p_block with
  | error c =>
    refine ⟨DecodeBlock_error c, by simp only [DecodeBlock, hk], ?_⟩
    unfold decode_spec
    dsimp only
    rcases e1 c hk with hn | ⟨s, c1, hs, hn⟩
    · rw [hn]
      rfl
    · rw [hs]
      dsimp only
      rw [hn]
      rfl
  | ok v =>
    obtain ⟨h, p_png, p_info, p_end_info, c⟩ := v
    have hz : to_u32 h.i_height ≠ 0 :=
      hh h (R.png_get_valid p_info PNG_INFO_tRNS) (by simp only [header_of, hk])
    obtain ⟨hend, hcb, c1, c2, hs1, hs2, hcore⟩ := e2 h p_png p_info p_end_info c hk
    obtain ⟨d, hd, hdsys, hdc, hdf⟩ := set_output_properties_some h c.p_dec hz
    have hr : DecodeBlock R pf_vout_buffer_new p_dec (some (some p_block)) =
        some (DecodeBlock_picture R pf_vout_buffer_new h
        (DecodeBlock_requests R h (R.png_get_valid p_info PNG_INFO_tRNS)
          (p_png, { c with p_dec := d })).1 p_end_info
        (DecodeBlock_requests R h (R.png_get_valid p_info PNG_INFO_tRNS)
          (p_png, { c with p_dec := d })).2) := by
      simp only [DecodeBlock, hk, DecodeBlock_select, hd]
    refine ⟨_, hr, ?_⟩
    obtain ⟨q1, q2⟩ := DecodeBlock_requests_core R h (R.png_get_valid p_info PNG_INFO_tRNS)
      (p_png, { c with p_dec := d }) hdc
    obtain ⟨_, hfmt⟩ := DecodeBlock_requests_spec R h (R.png_get_valid p_info PNG_INFO_tRNS)
      (p_png, { c with p_dec := d }) hdc
    have hsc : same_core (read_ctx.mk c.p_block d c.log) c2 :=
      ⟨hcore.1, by
        show d.p_sys.b_error = _
        rw [hdsys]
        exact hcore.2⟩
    obtain ⟨a1, a2⟩ := clean_requests_of_all R
      (transforms_of h (R.png_get_valid p_info PNG_INFO_tRNS))
      (p_png, { c with p_dec := d }) (p_png, c2) rfl hsc
    unfold decode_spec
    dsimp only
    rw [hs1]
    dsimp only
    rw [hs2]
    dsimp only
    rw [hdf]
    dsimp only
    by_cases hb : (DecodeBlock_requests R h (R.png_get_valid p_info PNG_INFO_tRNS)
        (p_png, { c with p_dec := d })).2.p_dec.p_sys.b_error = true
    · have hb' : (png_set_all R (transforms_of h (R.png_get_valid p_info PNG_INFO_tRNS))
          (p_png, { c with p_dec := d })).2.p_dec.p_sys.b_error = true := by
        rw [← q2.2]
        exact hb
      have hne : transforms_of h (R.png_get_valid p_info PNG_INFO_tRNS) ≠ [] := by
        intro hnil
        rw [hnil] at hb'
        have : d.p_sys.b_error = true := hb'
        rw [hdsys, hcb] at this
        cases this
      rw [a1 hb' hne]
      dsimp only
      rw [DecodeBlock_picture_core R pf_vout_buffer_new h _ p_end_info _ _ (same_core_refl _),
        if_pos hb]
    · simp only [Bool.not_eq_true] at hb
      have hb' : (png_set_all R (transforms_of h (R.png_get_valid p_info PNG_INFO_tRNS))
          (p_png, { c with p_dec := d })).2.p_dec.p_sys.b_error = false := by
        rw [← q2.2]
        exact hb
      obtain ⟨t, ht, t1, t2⟩ := a2 hb'
      rw [ht]
      dsimp only
      rw [DecodeBlock_picture_core R pf_vout_buffer_new h _ p_end_info _ t.2
        (same_core_trans q2 t2), if_neg (by rw [hb]; decide), q1, t1, hend]
      have hdec : (DecodeBlock_requests R h (R.png_get_valid p_info PNG_INFO_tRNS)
          (p_png, { c with p_dec := d })).2.p_dec =
          decoder_t.mk (decoder_sys_t.mk false)
            (es_format_t.mk (chroma_of h (R.png_get_valid p_info PNG_INFO_tRNS))
              d.fmt_out.video) := by
        rw [← hfmt, ← hb]
      rw [hdec]

/-! ## Claims about the outcome of `DecodeBlock` -/

/-- Every call on a non-null frame whose header, when the header stage reaches
it, has a non-zero height returns, with the shape of `decode_shape`. -/
theorem DecodeBlock_shape {σ ι : Type} (R : png_reader σ ι)
    (pf_vout_buffer_new : decoder_t → Option picture_t) (p_dec : decoder_t)
    (p_block : block_t)
    (hh : ∀ h valid, header_of R p_dec p_block = some (h, valid) → to_u32 h.i_height ≠ 0) :
    ∃ r pre mid post b1 b2,
      DecodeBlock R pf_vout_buffer_new p_dec (some (some p_block)) = some r ∧
      decode_shape r pre mid post b1 b2 := by
  cases hk : DecodeBlock_header R p_dec p_block with
  | error c =>
    obtain ⟨r, pre, hr, hs⟩ := DecodeBlock_shape_error R pf_vout_buffer_new p_dec p_block c hk
    exact ⟨r, pre, [], [], true, true, hr, hs⟩
  | ok x =>
    obtain ⟨h, p_png, p_info, p_end_info, c⟩ := x
    have hz : to_u32 h.i_height ≠ 0 :=
      hh h (R.png_get_valid p_info PNG_INFO_tRNS) (by simp only [header_of, hk])
    obtain ⟨r, pre, mid, post, b1, b2, hr, hs, _⟩ :=
      DecodeBlock_shape_ok R pf_vout_buffer_new p_dec p_block h p_png p_info p_end_info c hk hz
    exact ⟨r, pre, mid, post, b1, b2, hr, hs⟩

theorem not_mem_of_engine {b0 b1 : Bool} {evs : List Event} (t : engine_trace b0 b1 evs)
    (e : Event) (he : e.is_engine = false) : e ∉ evs := by
  intro hm
  have := t.engine e hm
  rw [he] at this
  cases this

/-- C4: for every non-null input frame whose header, when the engine delivers
one, has a non-zero height (a zero height makes the division of line 169 trap),
`DecodeBlock` returns, and the picture it returns is the one of `decode_spec`:
the allocator's buffer filled by the image read when every engine call (header
read, IHDR fetch, each transform request, image read, end read) left the error
flag down and the allocator returned a buffer, and no picture otherwise. On the
call's log: a picture is returned if and only if no error was dispatched to
`user_error` and the allocator returned a buffer; a short read of the read
callback always yields no picture; on every path the frame is released exactly
once and the caller's reference is set to null; the error flag is written false
once, at entry, and only ever written true afterwards. -/
theorem DecodeBlock_outcome {σ ι : Type} (R : png_reader σ ι)
    (pf_vout_buffer_new : decoder_t → Option picture_t) (p_dec : decoder_t)
    (p_block : block_t)
    (hh : ∀ h valid, header_of R p_dec p_block = some (h, valid) → to_u32 h.i_height ≠ 0) :
    ∃ r, DecodeBlock R pf_vout_buffer_new p_dec (some (some p_block)) = some r ∧
      r.p_pic = decode_spec R pf_vout_buffer_new p_dec p_block ∧
      (r.p_pic.isSome = true ↔
        (Event.b_error_set true ∉ r.log ∧ Event.vout_buffer_new true ∈ r.log)) ∧
      ((∃ n, Event.read_data n true ∈ r.log) → r.p_pic = none) ∧
      r.log.count Event.block_Release = 1 ∧
      r.pp_block = some none ∧
      (∃ rest, r.log = Event.b_error_set false :: rest ∧ Event.b_error_set false ∉ rest) := by
  obtain ⟨r, pre, mid, post, b1, b2, hr, hs⟩ :=
    DecodeBlock_shape R pf_vout_buffer_new p_dec p_block hh
  obtain ⟨r', hr', hspec⟩ := DecodeBlock_refines R pf_vout_buffer_new p_dec p_block hh
  rw [hr] at hr'
  cases hr'
  have hpre := not_mem_of_engine hs.pre_trace
  have hpost := not_mem_of_engine hs.post_trace
  -- the flag after the call, in terms of the log
  have hb2 : b2 = true ↔ (Event.b_error_set true ∈ pre ∨ Event.b_error_set true ∈ post) := by
    rw [hs.post_trace.flag, hs.pre_trace.flag]
    simp
  have hmid : ∀ e ∈ mid, ∃ b, e = Event.vout_buffer_new b := by
    intro e he
    rcases hs.mid_cases with m | m | m
    · rw [m.1] at he; cases he
    · rw [m.1] at he; exact ⟨false, by simpa using he⟩
    · rw [m] at he; exact ⟨true, by simpa using he⟩
  have herr : Event.b_error_set true ∈ r.log ↔ b2 = true := by
    rw [hb2, hs.log]
    simp only [List.mem_cons, List.mem_append, List.not_mem_nil, or_false]
    constructor
    · rintro (h | h | (h | h) | h | h)
      · cases h
      · exact Or.inl h
      · obtain ⟨b, hb⟩ := hmid _ h; cases hb
      · exact Or.inr h
      · cases h
      · cases h
    · rintro (h | h)
      · exact Or.inr (Or.inl h)
      · exact Or.inr (Or.inr (Or.inl (Or.inr h)))
  have hall : Event.vout_buffer_new true ∈ r.log ↔ mid = [Event.vout_buffer_new true] := by
    rw [hs.log]
    simp only [List.mem_cons, List.mem_append, List.not_mem_nil, or_false]
    constructor
    · rintro (h | h | (h | h) | h | h)
      · cases h
      · exact absurd h (hpre _ rfl)
      · rcases hs.mid_cases with m | m | m
        · rw [m.1] at h; cases h
        · rw [m.1] at h; simp at h
        · exact m
      · exact absurd h (hpost _ rfl)
      · cases h
      · cases h
    · intro h
      rw [h]
      exact Or.inr (Or.inr (Or.inl (Or.inl (List.mem_singleton.2 rfl))))
  refine ⟨r, hr, hspec, ?_, ?_, ?_, hs.pp_block, ?_⟩
  · rw [hs.pic, herr, hall]
    cases b2 <;> simp
  · rintro ⟨n, hn⟩
    have hin : Event.read_data n true ∈ pre ∨ Event.read_data n true ∈ post := by
      rw [hs.log] at hn
      simp only [List.mem_cons, List.mem_append, List.not_mem_nil, or_false] at hn
      rcases hn with h | h | (h | h) | h | h
      · cases h
      · exact Or.inl h
      · obtain ⟨b, hb⟩ := hmid _ h; cases hb
      · exact Or.inr h
      · cases h
      · cases h
    have hb : b2 = true := by
      rw [hb2]
      rcases hin with h | h
      · exact Or.inl (hs.pre_trace.short n h)
      · exact Or.inr (hs.post_trace.short n h)
    have hnot : ¬ r.p_pic.isSome = true := by
      rw [hs.pic, hb]
      simp
    cases hp : r.p_pic with
    | none => rfl
    | some p => rw [hp] at hnot; simp at hnot
  · rw [hs.log]
    have c1 : List.count Event.block_Release pre = 0 :=
      List.count_eq_zero.2 (hpre _ rfl)
    have c2 : List.count Event.block_Release post = 0 :=
      List.count_eq_zero.2 (hpost _ rfl)
    have c3 : List.count Event.block_Release mid = 0 := by
      apply List.count_eq_zero.2
      intro h
      obtain ⟨b, hb⟩ := hmid _ h
      cases hb
    simp [List.count_cons, List.count_append, c1, c2, c3]
  · refine ⟨_, hs.log, ?_⟩
    simp only [List.mem_cons, List.mem_append, List.not_mem_nil, or_false]
    rintro (h | (h | h) | h | h)
    · exact hpre (Event.b_error_set false) rfl h
    · obtain ⟨b, hb⟩ := hmid _ h; cases hb
    · exact hpost (Event.b_error_set false) rfl h
    · cases h
    · cases h

theorem DecodeBlock_outcome_witness :
    (DecodeBlock raw_reader alloc0 dec0 (some (some rgb_2x2))).map (fun r => r.p_pic) =
      some (decode_spec raw_reader alloc0 dec0 rgb_2x2) ∧
    (decode_spec raw_reader alloc0 dec0 rgb_2x2).isSome = true ∧
    (DecodeBlock raw_reader alloc0 dec0 (some (some rgb_2x2))).map
      (fun r => r.log.count Event.block_Release) = some 1 := by
  obtain ⟨r, e, h1, _, _, h4, _⟩ := DecodeBlock_outcome raw_reader alloc0 dec0 rgb_2x2
    (fun h valid hk => by
      have e : header_of raw_reader dec0 rgb_2x2 = some (⟨2, 2, 8, 2, 0, 0, 0⟩, 0) := by decide
      rw [e] at hk
      cases hk
      decide)
  rw [e]
  exact ⟨congrArg some h1, by decide, congrArg some h4⟩

/-! ## The encoder -/

theorem memcpy_fresh (d : List Byte) :
    memcpy (block_New d.length).p_buffer d d.length = d := by
  simp [memcpy, block_New]

/-- One `user_write` call appends the stamped copy of the chunk to the chain. -/
theorem user_write_eq (e : encoder_t) (d : List Byte) :
    user_write e d d.length =
      { e with p_sys := { e.p_sys with
          p_chain := e.p_sys.p_chain ++ [chunk_block e.p_sys.date d] } } := by
  have h := memcpy_fresh d
  simp only [block_New] at h
  simp only [user_write, block_ChainAppend, chunk_block, block_New, h]

/-- What an engine call on the write side does to the encoder: its chunks are
appended, stamped, in order; the flag is raised when it reports an error. -/
theorem WriteProg_run {α : Type} (p : WriteProg α) :
    ∀ e : encoder_t, p.run e =
      (p.value, { e with p_sys :=
        { p_chain := e.p_sys.p_chain ++ p.chunks.map (chunk_block e.p_sys.date)
          date := e.p_sys.date
          b_error := e.p_sys.b_error || p.errors } }) := by
  induction p with
  | ret a => intro e; simp [WriteProg.run, WriteProg.value, WriteProg.chunks, WriteProg.errors]
  | write_data d k ih =>
    intro e
    simp only [WriteProg.run, WriteProg.value, WriteProg.chunks, WriteProg.errors]
    rw [ih, user_write_eq]
    simp
  | flush k ih =>
    intro e
    simp only [WriteProg.run, WriteProg.value, WriteProg.chunks, WriteProg.errors]
    rw [ih]
    rfl
  | error k ih =>
    intro e
    simp only [WriteProg.run, WriteProg.value, WriteProg.chunks, WriteProg.errors]
    rw [ih]
    simp [user_write_error]
  | warning k ih =>
    intro e
    simp only [WriteProg.run, WriteProg.value, WriteProg.chunks, WriteProg.errors]
    rw [ih]
    rfl

/-- The encoder after the engine calls of `Encode`. -/
theorem Encode_engine_eq {σ ι : Type} (W : png_writer σ ι) (p_enc : encoder_t)
    (p_pic : picture_t) :
    Encode_engine W p_enc p_pic =
      { p_enc with p_sys :=
        { p_chain := p_enc.p_sys.p_chain ++
            (Encode_chunks W p_pic).map (chunk_block p_pic.date)
          date := p_pic.date
          b_error := p_enc.p_sys.b_error ||
            png_write_errors W (Encode_IHDR p_pic) (peek p_pic.p.p_pixels)
              (row_pointers p_pic.p.i_pitch p_pic.format.i_height) } } := by
  unfold Encode_engine Encode_chunks png_write_chunks png_write_errors
  simp only [WriteProg_run]
  simp [List.append_assoc, Bool.or_assoc]

theorem gather_chunks (date : Int) (cs : List (List Byte)) :
    (block_ChainGather (cs.map (chunk_block date))).p_buffer = cs.flatten ∧
    (block_ChainGather (cs.map (chunk_block date))).i_buffer = (cs.flatten.length : Int) := by
  constructor
  · simp [block_ChainGather, chunk_block, Function.comp_def]
  · simp only [block_ChainGather, chunk_block, List.map_map, Function.comp_def]
    induction cs with
    | nil => simp
    | cons c cs ih => simp [ih]

theorem Encode_entries_nil {σ ι : Type} (W : png_writer σ ι) (pics : List picture_t) :
    ∀ e : encoder_t, e.p_sys.p_chain = [] → ∀ ch ∈ Encode_entries W e pics, ch = [] := by
  induction pics with
  | nil => intro e _ ch h; cases h
  | cons p ps ih =>
    intro e he ch h
    rcases List.mem_cons.1 h with h | h
    · rw [h, he]
    · exact ih (Encode W e p).2 rfl ch h

/-- C6: starting from an empty chunk list, after the engine calls of `Encode`
the list holds the copies of the chunks the engine emitted, in emission order,
each stamped with the picture's date; when there is at least one chunk, `Encode`
returns the gather of that list, whose bytes are the concatenation of the
chunks in that order, and when there is none it returns no output; the list is
empty when `Encode` returns, hence at the start of every `Encode` call after
`OpenEncoder`. -/
theorem Encode_chain {σ ι : Type} (W : png_writer σ ι) (p_enc : encoder_t)
    (p_pic : picture_t) (hempty : p_enc.p_sys.p_chain = []) :
    (Encode_engine W p_enc p_pic).p_sys.p_chain =
      (Encode_chunks W p_pic).map (chunk_block p_pic.date) ∧
    (∀ b ∈ (Encode_engine W p_enc p_pic).p_sys.p_chain,
      b.i_pts = p_pic.date ∧ b.i_dts = p_pic.date) ∧
    (Encode_chunks W p_pic ≠ [] →
      (Encode W p_enc p_pic).1 =
        some (block_ChainGather ((Encode_chunks W p_pic).map (chunk_block p_pic.date))) ∧
      (block_ChainGather ((Encode_chunks W p_pic).map (chunk_block p_pic.date))).p_buffer =
        (Encode_chunks W p_pic).flatten) ∧
    (Encode_chunks W p_pic = [] → (Encode W p_enc p_pic).1 = none) ∧
    (Encode W p_enc p_pic).2.p_sys.p_chain = [] ∧
    (∀ (p0 : encoder_t) (mem : encoder_sys_t) (e : encoder_t),
      OpenEncoder p0 mem = some e →
      ∀ pics : List picture_t, ∀ ch ∈ Encode_entries W e pics, ch = []) := by
  have hc : (Encode_engine W p_enc p_pic).p_sys.p_chain =
      (Encode_chunks W p_pic).map (chunk_block p_pic.date) := by
    rw [Encode_engine_eq, hempty]
    simp
  refine ⟨hc, ?_, ?_, ?_, rfl, ?_⟩
  · intro b hb
    rw [hc] at hb
    obtain ⟨c, _, rfl⟩ := List.mem_map.1 hb
    exact ⟨rfl, rfl⟩
  · intro hne
    refine ⟨?_, (gather_chunks _ _).1⟩
    simp only [Encode, hc]
    rw [if_pos]
    simpa using hne
  · intro he
    simp only [Encode, hc, he]
    simp
  · intro p0 mem e ho pics
    apply Encode_entries_nil
    unfold OpenEncoder at ho
    split at ho
    · cases ho
    · injection ho with ho
      rw [← ho]

theorem Encode_chain_witness :
    (Encode raw_writer enc0 pic_2x2).1 =
      some ⟨[2, 2, 8, 2, 0, 1, 2, 3, 4, 5, 6, 7, 8, 9, 10, 11, 12], 17, 7, 7⟩ := by
  have h := (Encode_chain raw_writer enc0 pic_2x2 rfl).2.2.1 (by decide)
  rw [h.1]
  decide

/-- C7 on the code: the engine reports an error for the zero width of this
picture through `user_write_error`, which raises the flag, and `Encode` still
returns the frame gathered from the chunks that were emitted. -/
theorem Encode_returns_frame_after_error :
    png_write_errors raw_writer (Encode_IHDR pic_0x1) (peek pic_0x1.p.p_pixels)
      (row_pointers pic_0x1.p.i_pitch pic_0x1.format.i_height) = true ∧
    (Encode raw_writer enc0 pic_0x1).2.p_sys.b_error = true ∧
    (Encode raw_writer enc0 pic_0x1).1 = some ⟨[0, 1, 8, 2, 0], 5, 7, 7⟩ := by
  decide

/-- C9 on the code: for an RGB 1x1 frame cut after its header the call returns;
the allocator returns a picture, the image read then runs short and raises the
flag, and the call returns no picture without any release of the picture it
obtained. -/
theorem DecodeBlock_keeps_picture_on_error :
    ∃ r, DecodeBlock raw_reader alloc0 dec0 (some (some rgb_1x1_cut)) = some r ∧
      r.p_pic = none ∧
      r.log =
        [Event.b_error_set false, Event.read_data 5 false, Event.vout_buffer_new true,
         Event.read_data 3 true, Event.png_error, Event.b_error_set true, Event.msg_Err,
         Event.png_destroy_read_struct, Event.block_Release] ∧
      Event.vout_buffer_del ∉ r.log := by
  have e : (DecodeBlock raw_reader alloc0 dec0 (some (some rgb_1x1_cut))).isSome = true := by
    decide
  obtain ⟨r, hr⟩ := Option.isSome_iff_exists.1 e
  have h1 : (DecodeBlock raw_reader alloc0 dec0 (some (some rgb_1x1_cut))).map
      (fun r => r.p_pic) = some none := by decide
  have h2 : (DecodeBlock raw_reader alloc0 dec0 (some (some rgb_1x1_cut))).map
      (fun r => r.log) =
      some [Event.b_error_set false, Event.read_data 5 false, Event.vout_buffer_new true,
         Event.read_data 3 true, Event.png_error, Event.b_error_set true, Event.msg_Err,
         Event.png_destroy_read_struct, Event.block_Release] := by decide
  rw [hr] at h1 h2
  have h1' : r.p_pic = none := Option.some.inj h1
  have h2' : r.log = _ := Option.some.inj h2
  refine ⟨r, hr, h1', h2', ?_⟩
  rw [h2']
  decide

/-! ## Stores into the pixel memory -/

theorem store_length (mem : List Byte) (ptr : Nat) (bytes : List Byte)
    (hb : ptr + bytes.length ≤ mem.length) : (store mem ptr bytes).length = mem.length := by
  unfold store
  simp only [List.length_append, List.length_take, List.length_drop]
  omega

theorem store_all_cons (mem : List Byte) (s : Nat × List Byte) (rest : List (Nat × List Byte)) :
    store_all mem (s :: rest) = store_all (store mem s.1 s.2) rest := rfl

theorem store_all_length (stores : List (Nat × List Byte)) :
    ∀ mem : List Byte, (∀ s ∈ stores, s.1 + s.2.length ≤ mem.length) →
      (store_all mem stores).length = mem.length := by
  induction stores with
  | nil => intro mem _; rfl
  | cons s rest ih =>
    intro mem hb
    have hs := hb s (List.mem_cons_self _ _)
    rw [store_all_cons, ih, store_length _ _ _ hs]
    intro t ht
    rw [store_length _ _ _ hs]
    exact hb t (List.mem_cons_of_mem _ ht)

/-- The frame with a 2x0 RGB header: the header stage succeeds, the division of
line 169 traps, and the call does not return. -/
theorem DecodeBlock_zero_height :
    header_of raw_reader dec0 rgb_2x0 = some (⟨2, 0, 8, 2, 0, 0, 0⟩, 0) ∧
    DecodeBlock raw_reader alloc0 dec0 (some (some rgb_2x0)) = none := by
  decide

end Png
